import Mathlib

/-!
pmemgrep: a persistent cache of regular-expression matches

Shallow embedding of `simple_grep/pmemgrep_thx/pmemgrep.cpp`.

Modelling conventions.

* A persistent singly linked list (`next` pointers) is a Lean `List`, head first.
  A raw pointer into the list of files of a pattern (`file *`) is the position
  of the record in that list; `pattern.deref` reads through such a pointer and
  `pattern.store` writes through it.
* A value of type `const char *` (a path, a pattern text) is a Lean string without the
  NUL character. A `std::string` is any Lean string; copying one into a `char` array is
  `strcpy`, which stops at its first NUL character.
* `size_t` values are natural numbers reduced modulo `SIZE_MOD = 2 ^ 64` wherever the
  program does arithmetic on them; `time_t` values are integers.
* The file system is a function `fs` from a path to the lines `getline` would
  deliver, or `none` when `std::ifstream` cannot open the path.
* `std::regex_match` is a parameter `regex_match line exp`; the program is assumed to be
  given a pattern for which the `std::regex` constructor does not throw.
* Allocation in the pool is assumed to succeed, so every transaction commits.
-/

namespace Pmemgrep

/-- Number of values of the C type `size_t` on the 64-bit target. -/
def SIZE_MOD : Nat := 2 ^ 64

/-! ## Persistent data structures -/

/-- The struct `line`: text of a matched line and its line number. -/
structure line where
  linestr : String
  linenum : Nat
deriving DecidableEq, Repr

/-- The class `file`. The `next` pointer is the tail of the list the record sits in. -/
structure file where
  name : String
  mtime : Int
  lines : List line
deriving DecidableEq, Repr

/-- The constructor `file::file (filename)`: copies the name, sets `mtime = 0`,
and default-constructs an empty vector of lines. -/
def file.new (filename : String) : file :=
  { name := filename, mtime := 0, lines := [] }

/-- The getter `file::get_name`. -/
def file.get_name (f : file) : String := f.name

/-- The getter `file::get_nlines`, that is `lines.size ()`. -/
def file.get_nlines (f : file) : Nat := f.lines.length

/-- The getter `file::get_mtime`. -/
def file.get_mtime (f : file) : Int := f.mtime

/-- The setter `file::set_mtime`. -/
def file.set_mtime (f : file) (mt : Int) : file := { f with mtime := mt }

/-- The C function `strcpy` applied to `s.c_str ()`: what ends up in the destination, read
back as a C string, is the text before the first NUL character of `s`. -/
def strcpy (s : String) : String :=
  String.mk (s.toList.takeWhile (fun c => decide (c.toNat ≠ 0)))

/-- The method `file::create_new_line`: allocates `linestr.length () + 1` characters, copies
the line with `strcpy`, and does `lines.push_back (new_line)`. -/
def file.create_new_line (f : file) (linestr : String) (linenum : Nat) : file :=
  { f with lines := f.lines ++ [{ linestr := strcpy linestr, linenum := linenum }] }

/-- The `while (getline (fd, line))` loop of `file::process_pattern`, run over the
lines still to be read with the current value of the counter `linenum`. -/
def file.process_pattern_loop (regex_match : String → String → Bool) (exp : String) :
    List String → Nat → file → file
  | [], _, f => f
  | l :: rest, linenum, f =>
    let linenum1 := (linenum + 1) % SIZE_MOD
    if regex_match l exp then
      file.process_pattern_loop regex_match exp rest linenum1 (f.create_new_line l linenum1)
    else
      file.process_pattern_loop regex_match exp rest linenum1 f

/-- The method `file::process_pattern (str)`: opens the file called `name`, and inside one
transaction either appends every matching line, returning `0`, or, when the file
is not open, changes nothing and returns `-1`. -/
def file.process_pattern (regex_match : String → String → Bool)
    (fs : String → Option (List String)) (f : file) (str : String) : file × Int :=
  let patternstr := "(.*)(" ++ str ++ ")(.*)"
  match fs f.name with
  | some content => (file.process_pattern_loop regex_match patternstr content 0 f, 0)
  | none => (f, -1)

/-- The method `file::remove_lines`: `lines.clear ()`. -/
def file.remove_lines (f : file) : file := { f with lines := [] }

/-- The class `pattern`. The `next` pointer and the mutex are not represented. -/
structure pattern where
  patternstr : String
  files : List file
  nfiles : Nat
deriving DecidableEq, Repr

/-- The constructor `pattern::pattern (str)`. -/
def pattern.new (str : String) : pattern :=
  { patternstr := str, files := [], nfiles := 0 }

/-- The loop of `pattern::get_file`: advance `index` times or until the null pointer. -/
def pattern.get_file_loop : List file → Nat → Option file
  | [], _ => none
  | f :: _, 0 => some f
  | _ :: rest, index + 1 => pattern.get_file_loop rest index

/-- The method `pattern::get_file (index)`; `none` is the null pointer. -/
def pattern.get_file (p : pattern) (index : Nat) : Option file :=
  pattern.get_file_loop p.files index

/-- The getter `pattern::get_str`. -/
def pattern.get_str (p : pattern) : String := p.patternstr

/-- The loop of `pattern::find_file`: position of the first record whose name compares
equal (`strcmp == 0`) to `filename`, `none` for the null pointer. -/
def pattern.find_file_loop (filename : String) : List file → Option Nat
  | [] => none
  | f :: rest =>
    if filename = f.get_name then some 0
    else (pattern.find_file_loop filename rest).map (fun ptr => ptr + 1)

/-- The method `pattern::find_file (filename)`. -/
def pattern.find_file (p : pattern) (filename : String) : Option Nat :=
  pattern.find_file_loop filename p.files

/-- Read the record a `file *` points to. A pointer that does not point into the
list reads as a blank record; the program never forms such a pointer. -/
def pattern.deref (p : pattern) (ptr : Nat) : file :=
  (p.get_file ptr).getD (file.new "")

/-- Write a record through a `file *`. -/
def pattern.store (p : pattern) (ptr : Nat) (f : file) : pattern :=
  { p with files := p.files.set ptr f }

/-- The method `pattern::create_new_file (filename)`: one locked transaction that allocates a
new record, links it in front of `files`, increments `nfiles`, and returns a pointer to the
new head. -/
def pattern.create_new_file (p : pattern) (filename : String) : pattern × Nat :=
  ({ p with files := file.new filename :: p.files, nfiles := (p.nfiles + 1) % SIZE_MOD }, 0)

/-! ## Auxiliary functions -/

/-- The C function `difftime`. On the target the returned double is zero exactly when
the two times are equal, and the program only tests the result against zero. -/
def difftime (time1 time0 : Int) : Int := time1 - time0

/-- Lines 354 to 359 of `process_reg_file`: run `process_pattern` on the record `f` points
to; on failure return `-1`, otherwise set the modification time and return `0`. -/
def process_reg_file_scan (regex_match : String → String → Bool)
    (fs : String → Option (List String)) (p : pattern) (f : Nat) (mtime : Int) :
    pattern × Int :=
  let r := (p.deref f).process_pattern regex_match fs p.get_str
  let p2 := p.store f r.1
  if r.2 < 0 then (p2, -1)
  else (p2.store f ((p2.deref f).set_mtime mtime), 0)

/-- The function `process_reg_file (p, filename, mtime)`; returns the new state of the
pattern and the `int` result. -/
def process_reg_file (regex_match : String → String → Bool)
    (fs : String → Option (List String)) (p : pattern) (filename : String) (mtime : Int) :
    pattern × Int :=
  match p.find_file filename with
  | some f =>
    if difftime mtime (p.deref f).get_mtime = 0 then (p, 0)
    else
      process_reg_file_scan regex_match fs (p.store f (p.deref f).remove_lines) f mtime
  | none =>
    let c := p.create_new_file filename
    process_reg_file_scan regex_match fs c.1 c.2 mtime

/-- The states of the pattern after each durable step of lines 354 to 359: after the
`process_pattern` transaction and, when it succeeded, after `set_mtime`. -/
def process_reg_file_scan_steps (regex_match : String → String → Bool)
    (fs : String → Option (List String)) (p : pattern) (f : Nat) (mtime : Int) :
    List pattern :=
  let r := (p.deref f).process_pattern regex_match fs p.get_str
  let p2 := p.store f r.1
  if r.2 < 0 then [p2]
  else [p2, p2.store f ((p2.deref f).set_mtime mtime)]

/-- The function `process_reg_file` as the sequence of states it moves the pattern through:
the state on entry, the state after the `create_new_file` transaction or after
`remove_lines`, the state after the `process_pattern` transaction, the state after
`set_mtime`. -/
def process_reg_file_steps (regex_match : String → String → Bool)
    (fs : String → Option (List String)) (p : pattern) (filename : String) (mtime : Int) :
    List pattern :=
  match p.find_file filename with
  | some f =>
    if difftime mtime (p.deref f).get_mtime = 0 then [p]
    else
      p :: (p.store f (p.deref f).remove_lines) ::
        process_reg_file_scan_steps regex_match fs (p.store f (p.deref f).remove_lines) f mtime
  | none =>
    let c := p.create_new_file filename
    p :: c.1 :: process_reg_file_scan_steps regex_match fs c.1 c.2 mtime

/-! ## Directory scan -/

mutual
/-- What `directory_iterator` yields for one entry: a regular file with its
`last_write_time`, a directory with its last path component and its own entries, or
anything else. -/
inductive dirent where
  | regular (fpname : String) (mtime : Int)
  | directory (fpname : String) (filename : String) (entries : dirents)
  | other (fpname : String)
/-- The entries of one directory, in iteration order. -/
inductive dirents where
  | nil
  | cons (e : dirent) (rest : dirents)
end

mutual
/-- The body of the `BOOST_FOREACH` loop of `process_directory_recursive` for one entry. -/
def process_directory_entry : dirent → List (String × Int) → Int × List (String × Int)
  | .regular fpname mtime, files => (0, files ++ [(fpname, mtime)])
  | .directory _ filename entries, files =>
    if filename ≠ "." ∧ filename ≠ ".." then
      let r := process_directory_recursive entries files
      if r.1 < 0 then (-1, r.2) else (0, r.2)
    else (0, files)
  | .other _, files => (0, files)
/-- The function `process_directory_recursive`: appends every regular file below the
directory to `files`. -/
def process_directory_recursive : dirents → List (String × Int) → Int × List (String × Int)
  | .nil, files => (0, files)
  | .cons e rest, files =>
    let r := process_directory_entry e files
    if r.1 < 0 then (-1, r.2) else process_directory_recursive rest r.2
end

/-- The values of `start` and `end` computed by `process_directory_thread` for worker `id`
when the list holds `files_len` files; `num_threads` is the global of that name. -/
def thread_range (num_threads id files_len : Nat) : Nat × Nat :=
  let start := (id * (files_len / num_threads)) % SIZE_MOD
  let end0 := (start + files_len / num_threads) % SIZE_MOD
  if (id : Int) = (num_threads : Int) - 1 then (start, files_len) else (start, end0)

/-- The `for` loop of `process_directory_thread`, with `n` iterations left and counter `i`.
The result of `process_reg_file` is discarded. `none` stands for reading `files[i]`
past the end of the vector. -/
def process_directory_thread_loop (regex_match : String → String → Bool)
    (fs : String → Option (List String)) (files : List (String × Int)) :
    Nat → Nat → pattern → Option pattern
  | 0, _, p => some p
  | n + 1, i, p =>
    match files.get? i with
    | none => none
    | some x =>
      process_directory_thread_loop regex_match fs files n (i + 1)
        (process_reg_file regex_match fs p x.1 x.2).1

/-- The function `process_directory_thread (id, p, files)`. -/
def process_directory_thread (regex_match : String → String → Bool)
    (fs : String → Option (List String)) (num_threads id : Nat) (p : pattern)
    (files : List (String × Int)) : Option pattern :=
  let r := thread_range num_threads id files.length
  process_directory_thread_loop regex_match fs files (r.2 - r.1) r.1 p

/-- The workers `0, ..., n - 1` of `process_directory`, run one after the other. -/
def run_threads (regex_match : String → String → Bool)
    (fs : String → Option (List String)) (num_threads : Nat) (files : List (String × Int)) :
    Nat → pattern → Option pattern
  | 0, p => some p
  | n + 1, p =>
    match run_threads regex_match fs num_threads files n p with
    | none => none
    | some q => process_directory_thread regex_match fs num_threads n q files

/-- The function `process_directory (p, dirname)`, given the entries of the directory. The
threads are run in the order of their ids, which is one of the schedules the
program allows; the returned `int` is the same under every schedule. -/
def process_directory (regex_match : String → String → Bool)
    (fs : String → Option (List String)) (num_threads : Nat) (p : pattern)
    (dir : dirents) : Option (pattern × Int) :=
  let r := process_directory_recursive dir []
  if r.1 < 0 then some (p, -1)
  else (run_threads regex_match fs num_threads r.2 num_threads p).map (fun q => (q, 0))

/-- The function `process_input (p, input)`, given what the path `input` names. -/
def process_input (regex_match : String → String → Bool)
    (fs : String → Option (List String)) (num_threads : Nat) (p : pattern) :
    dirent → Option (pattern × Int)
  | .regular fpname mtime => some (process_reg_file regex_match fs p fpname mtime)
  | .directory _ _ entries => process_directory regex_match fs num_threads p entries
  | .other _ => some (p, -1)

/-! ## Printing -/

/-- What is written to `cout`, one item per `<<`: a string, a number, or `endl`. -/
inductive token where
  | str (s : String)
  | num (n : Nat)
  | endl
deriving DecidableEq, Repr

/-- The getter `file::get_line (index)`, that is `&(lines[index])`; `none` stands for an index
past the end of the vector. -/
def file.get_line (f : file) (index : Nat) : Option line := f.lines.get? index

/-- The inner loop of `pattern::print`, `for (j = ...; j > 0; j--)`, entered with the value
`j`: prints line `j - 1`, then goes on with `j - 1`. -/
def pattern.print_lines_loop (f : file) : Nat → Option (List token)
  | 0 => some []
  | j + 1 =>
    match f.get_line j with
    | none => none
    | some l =>
      (pattern.print_lines_loop f j).map
        (fun rest => [token.num l.linenum, token.str ": ", token.str l.linestr, token.endl] ++ rest)

/-- The body of the outer loop of `pattern::print` for the record `f`. -/
def pattern.print_file (f : file) : Option (List token) :=
  (pattern.print_lines_loop f f.get_nlines).map
    (fun rest =>
      [token.str "###############", token.endl,
       token.str "FILE = ", token.str f.get_name, token.endl,
       token.str "###############", token.endl,
       token.str "*** pattern present in ", token.num f.get_nlines, token.str " lines ***",
       token.endl] ++ rest)

/-- The outer loop of `pattern::print`, `for (i = ...; i < nfiles; i++)`, with `n` iterations
left and counter `i`; `none` stands for calling a method on the null pointer. -/
def pattern.print_files_loop (p : pattern) : Nat → Nat → Option (List token)
  | 0, _ => some []
  | n + 1, i =>
    match p.get_file i with
    | none => none
    | some f =>
      match pattern.print_file f with
      | none => none
      | some b => (pattern.print_files_loop p n (i + 1)).map (fun rest => b ++ rest)

/-- The method `pattern::print`. -/
def pattern.print (p : pattern) : Option (List token) :=
  (pattern.print_files_loop p p.nfiles 0).map
    (fun rest =>
      [token.str "PATTERN = ", token.str p.patternstr, token.endl,
       token.str "\t", token.num p.nfiles, token.str " file(s) scanned", token.endl,
       token.str " files", token.endl] ++ rest)

/-! ## The root object -/

/-- The class `root`. -/
structure root where
  npatterns : Nat
  patterns : List pattern
deriving DecidableEq, Repr

/-- The loop of `root::find_pattern`: position of the first pattern whose text compares
equal to `patternstr`, `none` for the null pointer. -/
def root.find_pattern_loop (patternstr : String) : List pattern → Option Nat
  | [] => none
  | q :: rest =>
    if patternstr = q.get_str then some 0
    else (root.find_pattern_loop patternstr rest).map (fun ptr => ptr + 1)

/-- The method `root::find_pattern (patternstr)`. -/
def root.find_pattern (r : root) (patternstr : String) : Option Nat :=
  root.find_pattern_loop patternstr r.patterns

/-- The method `root::create_new_pattern (patternstr)`: one transaction that allocates a new
pattern, links it in front of `patterns`, increments `npatterns`, and returns a pointer to
the new head. -/
def root.create_new_pattern (r : root) (patternstr : String) : root × Nat :=
  ({ npatterns := (r.npatterns + 1) % SIZE_MOD,
     patterns := pattern.new patternstr :: r.patterns }, 0)

/-- Lines 467 to 469 of `main`: look the pattern up and create it when it is not found.
Returns the new root and the pointer `p`. -/
def main_select_pattern (r : root) (patternstr : String) : root × Nat :=
  match r.find_pattern patternstr with
  | some ptr => (r, ptr)
  | none => r.create_new_pattern patternstr

/-! ## Two workers on one pattern -/

/-- An address of a record that stays valid when records are linked in front of the
list: the number of records behind it. `pattern.back` turns a position into such an
address and an address into a position. -/
def pattern.back (p : pattern) (i : Nat) : Nat := p.files.length - 1 - i

/-- Where a worker stands inside `process_reg_file`: before `find_file`; after the lookup
and the `difftime` test, holding the pointer `f` (`none` is null); after `create_new_file` or
`remove_lines`; after the return. -/
inductive worker where
  | start
  | looked (f : Option Nat)
  | scan (f : Nat)
  | done (ret : Int)
deriving DecidableEq, Repr

/-- One step of a worker executing `process_reg_file (p, filename, mtime)` on the shared
pattern: the lookup with the `difftime` test; then `create_new_file` (one locked transaction)
or `remove_lines`; then lines 354 to 359. -/
def worker_step (regex_match : String → String → Bool)
    (fs : String → Option (List String)) (filename : String) (mtime : Int) (p : pattern) :
    worker → pattern × worker
  | .start =>
    match p.find_file filename with
    | some f =>
      if difftime mtime (p.deref f).get_mtime = 0 then (p, .done 0)
      else (p, .looked (some (p.back f)))
    | none => (p, .looked none)
  | .looked (some a) => (p.store (p.back a) (p.deref (p.back a)).remove_lines, .scan a)
  | .looked none =>
    let c := p.create_new_file filename
    (c.1, .scan (c.1.back c.2))
  | .scan a =>
    let r := process_reg_file_scan regex_match fs p (p.back a) mtime
    (r.1, .done r.2)
  | .done ret => (p, .done ret)

/-- Two workers calling `process_reg_file` with the same arguments, interleaved as the
schedule says: `true` lets the first worker take its next step, `false` the second. -/
def race_run (regex_match : String → String → Bool)
    (fs : String → Option (List String)) (filename : String) (mtime : Int) :
    List Bool → pattern × worker × worker → pattern × worker × worker
  | [], s => s
  | true :: rest, s =>
    let r := worker_step regex_match fs filename mtime s.1 s.2.1
    race_run regex_match fs filename mtime rest (r.1, r.2, s.2.2)
  | false :: rest, s =>
    let r := worker_step regex_match fs filename mtime s.1 s.2.2
    race_run regex_match fs filename mtime rest (r.1, s.2.1, r.2)

/-! ## Specification-level definitions -/

/-- The regular expression `file::process_pattern` builds from the pattern text. -/
def pattern_exp (str : String) : String := "(.*)(" ++ str ++ ")(.*)"

/-- The matched-line sequence as the specification words it: number the lines from 1 and
keep, in file order, every line the matcher accepts. -/
def matched_lines_spec (matcher : String → Bool) (content : List String) : List line :=
  ((content.enumFrom 1).filter (fun x => matcher x.2)).map
    (fun x => { linestr := x.2, linenum := x.1 })

/-- The matched-line sequence with the text as a `char` array holds it: number the lines
from 1 and keep, in file order, every line the matcher accepts, each cut at its first NUL
character. -/
def stored_lines (matcher : String → Bool) (content : List String) : List line :=
  ((content.enumFrom 1).filter (fun x => matcher x.2)).map
    (fun x => { linestr := strcpy x.2, linenum := x.1 })

/-- A line of text without the NUL character. -/
def nul_free (l : String) : Prop := ∀ c ∈ l.toList, c.toNat ≠ 0

/-- The lines the loop of `file::process_pattern` appends when it reads `content` for the
pattern text `str`: the result of the loop started on a record without lines. -/
def scanned_lines (regex_match : String → String → Bool) (str : String)
    (content : List String) : List line :=
  (file.process_pattern_loop regex_match (pattern_exp str) content 0 (file.new "")).lines

/-- The record a pattern holds for a path: the one `find_file` returns. -/
def pattern.record (p : pattern) (filename : String) : Option file :=
  (p.find_file filename).map p.deref

/-- The paths of the records of a pattern, in list order. -/
def pattern.names (p : pattern) : List String := p.files.map file.get_name

/-- A stand-in for `std::regex_match` on expressions `(.*)(text)(.*)` whose `text` has no
special character: the line matches exactly when it contains `text`. -/
def literal_regex_match (l exp : String) : Bool :=
  let text := (exp.toList.drop 5).take (exp.toList.length - 10)
  l.toList.tails.any (fun t => text.isPrefixOf t)

/-- One call of `process_reg_file` on a pattern: the file system at the time of the call,
the path and the modification time passed. -/
structure call where
  fs : String → Option (List String)
  filename : String
  mtime : Int

/-- The state of a pattern after a sequence of calls of `process_reg_file`, one after the
other. -/
def run_calls (regex_match : String → String → Bool) : pattern → List call → pattern
  | p, [] => p
  | p, c :: rest =>
    run_calls regex_match (process_reg_file regex_match c.fs p c.filename c.mtime).1 rest

/-- The `(mtime, lines)` pair of the record a pattern holds for a path. -/
def pattern.pair (p : pattern) (filename : String) : Option (Int × List line) :=
  (p.record filename).map (fun f => (f.mtime, f.lines))

/-- The number of records a pattern holds for a path. -/
def pattern.count (p : pattern) (filename : String) : Nat := p.names.count filename

/-- The number of records a worker is about to create: one when it has looked the path up,
found nothing and not yet called `create_new_file`. -/
def worker.pending : worker → Nat
  | .looked none => 1
  | _ => 0

/-- The texts of the patterns of a root, in list order. -/
def root.texts (r : root) : List String := r.patterns.map pattern.get_str

/-- The tokens `pattern::print` writes for one matched line. -/
def line_tokens (l : line) : List token :=
  [token.num l.linenum, token.str ": ", token.str l.linestr, token.endl]

/-- The tokens `pattern::print` writes before the lines of a file: the name between two rules
and the count `k`. -/
def file_heading (name : String) (k : Nat) : List token :=
  [token.str "###############", token.endl,
   token.str "FILE = ", token.str name, token.endl,
   token.str "###############", token.endl,
   token.str "*** pattern present in ", token.num k, token.str " lines ***", token.endl]

/-- The tokens `pattern::print` is to write for one record: the heading with the number of
lines, then the lines from the last one stored to the first. -/
def file_block (f : file) : List token :=
  file_heading f.get_name f.lines.length ++ f.lines.reverse.flatMap line_tokens

/-- The paths of a sequence of scans in the order in which they are scanned for the first
time: every path once, at its first occurrence. -/
def first_scans : List String → List String
  | [] => []
  | x :: rest => x :: (first_scans rest).filter (fun y => decide (y ≠ x))

/-- The tokens `pattern::print` writes before the first file. -/
def pattern_heading (p : pattern) : List token :=
  [token.str "PATTERN = ", token.str p.patternstr, token.endl,
   token.str "\t", token.num p.nfiles, token.str " file(s) scanned", token.endl,
   token.str " files", token.endl]

end Pmemgrep


namespace Pmemgrep

/-! ## Lists of records and pointers into them -/

theorem get_file_loop_eq (l : List file) (i : Nat) : pattern.get_file_loop l i = l[i]? := by
  induction l generalizing i with
  | nil => simp [pattern.get_file_loop]
  | cons a l ih => cases i <;> simp [pattern.get_file_loop, ih]

theorem find_file_loop_lt {n : String} {l : List file} {i : Nat}
    (h : pattern.find_file_loop n l = some i) : i < l.length := by
  induction l generalizing i with
  | nil => simp [pattern.find_file_loop] at h
  | cons a l ih =>
    simp only [pattern.find_file_loop] at h
    split at h
    · cases h; simp
    · cases hr : pattern.find_file_loop n l with
      | none => simp [hr] at h
      | some j =>
        simp [hr] at h
        subst h
        simpa using ih hr

theorem find_file_loop_name {n : String} {l : List file} {i : Nat}
    (h : pattern.find_file_loop n l = some i) : ∃ f, l[i]? = some f ∧ f.name = n := by
  induction l generalizing i with
  | nil => simp [pattern.find_file_loop] at h
  | cons a l ih =>
    simp only [pattern.find_file_loop] at h
    split at h
    · rename_i hn
      cases h
      exact ⟨a, by simp, hn.symm⟩
    · cases hr : pattern.find_file_loop n l with
      | none => simp [hr] at h
      | some j =>
        simp [hr] at h
        subst h
        simpa using ih hr

theorem find_file_loop_none_iff (n : String) (l : List file) :
    pattern.find_file_loop n l = none ↔ n ∉ l.map file.get_name := by
  induction l with
  | nil => simp [pattern.find_file_loop]
  | cons a l ih =>
    simp only [pattern.find_file_loop, List.map_cons, List.mem_cons, not_or]
    split
    · rename_i hn
      simp [hn]
    · rename_i hn
      simp [hn, ih]

theorem find_file_loop_congr (n : String) {l l2 : List file}
    (h : l.map file.get_name = l2.map file.get_name) :
    pattern.find_file_loop n l = pattern.find_file_loop n l2 := by
  induction l generalizing l2 with
  | nil =>
    cases l2 with
    | nil => rfl
    | cons b l2 => simp at h
  | cons a l ih =>
    cases l2 with
    | nil => simp at h
    | cons b l2 =>
      simp only [List.map_cons, List.cons.injEq] at h
      simp only [pattern.find_file_loop, h.1, ih h.2]

theorem map_name_set_same {l : List file} {i : Nat} {f g : file}
    (hf : l[i]? = some f) (hg : g.name = f.name) :
    (l.set i g).map file.get_name = l.map file.get_name := by
  induction l generalizing i with
  | nil => simp at hf
  | cons a l ih =>
    cases i with
    | zero =>
      simp at hf
      subst hf
      simp [file.get_name, hg]
    | succ i =>
      simp at hf
      simp [ih hf]

theorem deref_eq {p : pattern} {i : Nat} {f : file} (h : p.files[i]? = some f) :
    p.deref i = f := by
  simp [pattern.deref, pattern.get_file, get_file_loop_eq, h]

theorem deref_store {p : pattern} {i : Nat} (g : file) (h : i < p.files.length) :
    (p.store i g).deref i = g := by
  apply deref_eq
  simp [pattern.store, List.getElem?_set_self h]

theorem store_store (p : pattern) (i : Nat) (g h : file) :
    (p.store i g).store i h = p.store i h := by
  simp [pattern.store, List.set_set]

theorem store_files (p : pattern) (i : Nat) (g : file) :
    (p.store i g).files = p.files.set i g := rfl

/-! ## The line loop -/

theorem process_pattern_loop_eq (regex_match : String → String → Bool) (exp : String)
    (content : List String) (n : Nat) (f : file) (h : n + content.length < SIZE_MOD) :
    file.process_pattern_loop regex_match exp content n f =
      { name := f.name, mtime := f.mtime,
        lines := f.lines ++
          ((content.enumFrom (n + 1)).filter (fun x => regex_match x.2 exp)).map
            (fun x => { linestr := strcpy x.2, linenum := x.1 }) } := by
  induction content generalizing n f with
  | nil => simp [file.process_pattern_loop]
  | cons l rest ih =>
    have hn : (n + 1) % SIZE_MOD = n + 1 := by
      apply Nat.mod_eq_of_lt
      simp only [List.length_cons] at h
      omega
    have h2 : (n + 1) + rest.length < SIZE_MOD := by
      simp only [List.length_cons] at h
      omega
    simp only [file.process_pattern_loop, hn, List.enumFrom_cons]
    by_cases hm : regex_match l exp = true
    · simp [hm, ih (n + 1) _ h2, file.create_new_line, List.filter_cons]
    · simp [hm, ih (n + 1) _ h2, List.filter_cons]

theorem process_pattern_loop_frame (regex_match : String → String → Bool) (exp : String)
    (content : List String) (n : Nat) (f : file) :
    file.process_pattern_loop regex_match exp content n f =
      { name := f.name, mtime := f.mtime,
        lines := f.lines ++
          (file.process_pattern_loop regex_match exp content n (file.new "")).lines } := by
  induction content generalizing n f with
  | nil => simp [file.process_pattern_loop, file.new]
  | cons l rest ih =>
    simp only [file.process_pattern_loop]
    by_cases hm : regex_match l exp = true
    · simp only [hm, if_true]
      rw [ih _ (f.create_new_line l _), ih _ ((file.new "").create_new_line l _)]
      simp [file.create_new_line, file.new]
    · simp only [hm]
      exact ih _ f

theorem scanned_lines_eq_stored (regex_match : String → String → Bool) (str : String)
    (content : List String) (hlen : content.length < SIZE_MOD) :
    scanned_lines regex_match str content =
      stored_lines (fun l => regex_match l (pattern_exp str)) content := by
  unfold scanned_lines
  rw [process_pattern_loop_eq _ _ _ _ _ (by simpa using hlen)]
  simp [file.new, stored_lines]

theorem strcpy_nul_free (l : String) (h : nul_free l) : strcpy l = l := by
  have ht : l.toList.takeWhile (fun c => decide (c.toNat ≠ 0)) = l.toList := by
    rw [List.takeWhile_eq_self_iff]
    intro c hc
    simpa using h c hc
  simp only [strcpy, ht]
  rfl

theorem stored_lines_nul_free (matcher : String → Bool) (content : List String)
    (h : ∀ l ∈ content, nul_free l) :
    stored_lines matcher content = matched_lines_spec matcher content := by
  simp only [stored_lines, matched_lines_spec]
  apply List.map_congr_left
  intro x hx
  have hmem : x.2 ∈ content := by
    have h1 := List.mem_of_mem_filter hx
    exact (List.mem_enumFrom h1).2.2 ▸ List.getElem_mem _
  rw [strcpy_nul_free _ (h _ hmem)]

theorem process_pattern_readable (regex_match : String → String → Bool)
    (fs : String → Option (List String)) (f : file) (str : String) (content : List String)
    (hfs : fs f.name = some content) :
    f.process_pattern regex_match fs str =
      ({ name := f.name, mtime := f.mtime,
         lines := f.lines ++ scanned_lines regex_match str content }, 0) := by
  simp only [file.process_pattern, hfs]
  rw [process_pattern_loop_frame]
  rfl

theorem process_pattern_unreadable (regex_match : String → String → Bool)
    (fs : String → Option (List String)) (f : file) (str : String)
    (hfs : fs f.name = none) :
    f.process_pattern regex_match fs str = (f, -1) := by
  simp only [file.process_pattern, hfs]

/-! ## What one call of `process_reg_file` does, case by case -/

theorem find_file_deref {p : pattern} {n : String} {i : Nat}
    (h : p.find_file n = some i) :
    i < p.files.length ∧ p.files[i]? = some (p.deref i) ∧ (p.deref i).name = n := by
  obtain ⟨f, hf, hn⟩ := find_file_loop_name h
  refine ⟨find_file_loop_lt h, ?_, ?_⟩
  · rw [deref_eq hf, hf]
  · rw [deref_eq hf, hn]

theorem process_reg_file_skip (regex_match : String → String → Bool)
    (fs : String → Option (List String)) {p : pattern} {n : String} {mtime : Int} {i : Nat}
    (hfind : p.find_file n = some i) (hmt : (p.deref i).mtime = mtime) :
    process_reg_file regex_match fs p n mtime = (p, 0) := by
  simp [process_reg_file, hfind, difftime, file.get_mtime, hmt]

theorem process_reg_file_rescan (regex_match : String → String → Bool)
    (fs : String → Option (List String)) {p : pattern} {n : String} {mtime : Int} {i : Nat}
    {content : List String}
    (hfind : p.find_file n = some i) (hmt : (p.deref i).mtime ≠ mtime)
    (hfs : fs n = some content) :
    process_reg_file regex_match fs p n mtime =
      (p.store i { name := n, mtime := mtime,
                   lines := scanned_lines regex_match p.patternstr content }, 0) := by
  obtain ⟨hlt, _, hname⟩ := find_file_deref hfind
  have hd : difftime mtime (p.deref i).get_mtime ≠ 0 := by
    simp only [difftime, file.get_mtime]
    intro h
    exact hmt (by omega)
  have hlt2 : i < (p.store i (p.deref i).remove_lines).files.length := by
    simpa [store_files] using hlt
  simp only [process_reg_file, hfind, hd, if_false, process_reg_file_scan]
  rw [deref_store _ hlt]
  have hfs2 : fs (p.deref i).remove_lines.name = some content := by
    simpa [file.remove_lines, hname] using hfs
  rw [process_pattern_readable regex_match fs _ _ content hfs2]
  have h0 : ¬ ((0 : Int) < 0) := by decide
  simp only [h0, if_false, deref_store _ hlt2, deref_store _ hlt, store_store]
  simp [file.set_mtime, file.remove_lines, hname, pattern.get_str, pattern.store]

theorem process_reg_file_rescan_fail (regex_match : String → String → Bool)
    (fs : String → Option (List String)) {p : pattern} {n : String} {mtime : Int} {i : Nat}
    (hfind : p.find_file n = some i) (hmt : (p.deref i).mtime ≠ mtime)
    (hfs : fs n = none) :
    process_reg_file regex_match fs p n mtime =
      (p.store i { name := n, mtime := (p.deref i).mtime, lines := [] }, -1) := by
  obtain ⟨hlt, _, hname⟩ := find_file_deref hfind
  have hd : difftime mtime (p.deref i).get_mtime ≠ 0 := by
    simp only [difftime, file.get_mtime]
    intro h
    exact hmt (by omega)
  simp only [process_reg_file, hfind, hd, if_false, process_reg_file_scan]
  rw [deref_store _ hlt]
  have hfs2 : fs (p.deref i).remove_lines.name = none := by
    simpa [file.remove_lines, hname] using hfs
  rw [process_pattern_unreadable regex_match fs _ _ hfs2]
  simp [store_store, file.remove_lines, hname]

theorem process_reg_file_first (regex_match : String → String → Bool)
    (fs : String → Option (List String)) {p : pattern} {n : String} {mtime : Int}
    {content : List String}
    (hfind : p.find_file n = none)
    (hfs : fs n = some content) :
    process_reg_file regex_match fs p n mtime =
      ({ patternstr := p.patternstr,
         files := { name := n, mtime := mtime,
                    lines := scanned_lines regex_match p.patternstr content } :: p.files,
         nfiles := (p.nfiles + 1) % SIZE_MOD }, 0) := by
  simp only [process_reg_file, hfind, process_reg_file_scan, pattern.create_new_file]
  have hd : ∀ q : pattern, ∀ g : file, ∀ r : List file, q.files = g :: r → q.deref 0 = g := by
    intro q g r h
    apply deref_eq
    simp [h]
  rw [hd _ (file.new n) p.files rfl]
  have hfs2 : fs (file.new n).name = some content := by simpa [file.new] using hfs
  rw [process_pattern_readable regex_match fs _ _ content hfs2]
  simp [pattern.store, pattern.deref, pattern.get_file, pattern.get_file_loop, file.set_mtime,
    file.new, pattern.get_str]

theorem process_reg_file_first_fail (regex_match : String → String → Bool)
    (fs : String → Option (List String)) {p : pattern} {n : String} {mtime : Int}
    (hfind : p.find_file n = none) (hfs : fs n = none) :
    process_reg_file regex_match fs p n mtime =
      ({ patternstr := p.patternstr, files := file.new n :: p.files,
         nfiles := (p.nfiles + 1) % SIZE_MOD }, -1) := by
  simp only [process_reg_file, hfind, process_reg_file_scan, pattern.create_new_file]
  have hd : ∀ q : pattern, ∀ g : file, ∀ r : List file, q.files = g :: r → q.deref 0 = g := by
    intro q g r h
    apply deref_eq
    simp [h]
  rw [hd _ (file.new n) p.files rfl]
  have hfs2 : fs (file.new n).name = none := by simpa [file.new] using hfs
  rw [process_pattern_unreadable regex_match fs _ _ hfs2]
  simp [pattern.store]

/-! ## The record held for a path -/

theorem find_file_none_iff (p : pattern) (n : String) :
    p.find_file n = none ↔ n ∉ p.names :=
  find_file_loop_none_iff n p.files

theorem find_loop_map_getD (n : String) (d : file) (l : List file) :
    (pattern.find_file_loop n l).map (fun i => (l[i]?).getD d) =
      l.find? (fun f => decide (n = f.name)) := by
  induction l with
  | nil => simp [pattern.find_file_loop]
  | cons a l ih =>
    simp only [pattern.find_file_loop, file.get_name, List.find?_cons]
    by_cases hn : n = a.name
    · simp [hn]
    · simp only [hn, if_false, decide_False]
      rw [← ih]
      cases pattern.find_file_loop n l <;> simp

theorem record_eq_find (p : pattern) (n : String) :
    p.record n = p.files.find? (fun f => decide (n = f.name)) := by
  rw [← find_loop_map_getD n (file.new "") p.files]
  simp only [pattern.record, pattern.find_file]
  congr 1
  funext i
  simp [pattern.deref, pattern.get_file, get_file_loop_eq]

theorem record_of_find {p : pattern} {n : String} {i : Nat} (h : p.find_file n = some i) :
    p.record n = some (p.deref i) := by
  simp [pattern.record, h]

theorem find_of_record {p : pattern} {n : String} {f : file} (h : p.record n = some f) :
    ∃ i, p.find_file n = some i ∧ p.deref i = f := by
  simp only [pattern.record, Option.map_eq_some'] at h
  exact h

theorem find_set_hit {n : String} {l : List file} {i : Nat} (g : file)
    (h : pattern.find_file_loop n l = some i) (hg : g.name = n) :
    (l.set i g).find? (fun f => decide (n = f.name)) = some g := by
  induction l generalizing i with
  | nil => simp [pattern.find_file_loop] at h
  | cons a l ih =>
    simp only [pattern.find_file_loop, file.get_name] at h
    by_cases hn : n = a.name
    · simp only [hn, if_true, Option.some.injEq] at h
      subst h
      simp [hg, hn]
    · simp only [hn, if_false, Option.map_eq_some'] at h
      obtain ⟨j, hj, rfl⟩ := h
      simp [List.find?_cons, hn, ih hj]

theorem find_set_miss {P : file → Bool} {l : List file} {i : Nat} {f g : file}
    (hf : l[i]? = some f) (hPf : P f = false) (hPg : P g = false) :
    (l.set i g).find? P = l.find? P := by
  induction l generalizing i with
  | nil => simp at hf
  | cons a l ih =>
    cases i with
    | zero =>
      simp at hf
      subst hf
      simp [List.find?_cons, hPf, hPg]
    | succ i =>
      simp at hf
      simp [List.find?_cons, ih hf]

theorem record_store_hit {p : pattern} {n : String} {i : Nat} (g : file)
    (h : p.find_file n = some i) (hg : g.name = n) :
    (p.store i g).record n = some g := by
  rw [record_eq_find, store_files]
  exact find_set_hit g h hg

theorem record_store_miss {p : pattern} {n m : String} {i : Nat} (g : file)
    (h : p.find_file n = some i) (hg : g.name = n) (hm : m ≠ n) :
    (p.store i g).record m = p.record m := by
  obtain ⟨_, hf, hname⟩ := find_file_deref h
  rw [record_eq_find, record_eq_find, store_files]
  apply find_set_miss hf
  · simp [hname, hm]
  · simp [hg, hm]

/-! ## Results of one scan, in terms of the record for the path -/

theorem process_reg_file_success_record (regex_match : String → String → Bool)
    (fs : String → Option (List String)) (p q : pattern) (n : String) (mtime : Int)
    (h : process_reg_file regex_match fs p n mtime = (q, 0)) :
    (q.record n).map file.get_mtime = some mtime := by
  cases hfind : p.find_file n with
  | some i =>
    by_cases hmt : (p.deref i).mtime = mtime
    · rw [process_reg_file_skip regex_match fs hfind hmt] at h
      cases h
      simp [record_of_find hfind, file.get_mtime, hmt]
    · cases hfs : fs n with
      | none =>
        rw [process_reg_file_rescan_fail regex_match fs hfind hmt hfs] at h
        simp at h
      | some content =>
        rw [process_reg_file_rescan regex_match fs hfind hmt hfs] at h
        cases h
        rw [record_store_hit _ hfind rfl]
        rfl
  | none =>
    cases hfs : fs n with
    | none =>
      rw [process_reg_file_first_fail regex_match fs hfind hfs] at h
      simp at h
    | some content =>
      rw [process_reg_file_first regex_match fs hfind hfs] at h
      cases h
      simp [record_eq_find, file.get_mtime]

/-! ## Claims about a single scan -/

/-- C1. Idempotence of `process_reg_file`: when the record the pattern holds for the path
already carries the supplied modification time, and in particular when the pattern is the
result of a successful scan with the same path and time, the call returns `0` and the
whole pattern (every record, their order and `nfiles`) is unchanged, whatever the file
system holds. -/
theorem process_reg_file_idempotent (regex_match : String → String → Bool)
    (fs : String → Option (List String)) (p : pattern) (filename : String) (mtime : Int)
    (h : (p.record filename).map file.get_mtime = some mtime ∨
      ∃ fs0 p0, process_reg_file regex_match fs0 p0 filename mtime = (p, 0)) :
    process_reg_file regex_match fs p filename mtime = (p, 0) := by
  have hrec : (p.record filename).map file.get_mtime = some mtime := by
    rcases h with h | ⟨fs0, p0, h⟩
    · exact h
    · exact process_reg_file_success_record regex_match fs0 p0 p filename mtime h
  simp only [Option.map_eq_some'] at hrec
  obtain ⟨f, hf, hmt⟩ := hrec
  obtain ⟨i, hi, hd⟩ := find_of_record hf
  exact process_reg_file_skip regex_match fs hi (by rw [hd]; exact hmt)

/-- Witness for C1: the pattern reached by scanning `a.log` is left as it is by a second
scan with the same arguments, even after the file has become unreadable. -/
theorem process_reg_file_idempotent_witness :
    process_reg_file literal_regex_match (fun _ => none)
      (process_reg_file literal_regex_match
        (fun s => if s = "a.log" then some ["ok", "ERROR: disk full"] else none)
        (pattern.new "ERROR") "a.log" 7).1 "a.log" 7 =
      ((process_reg_file literal_regex_match
        (fun s => if s = "a.log" then some ["ok", "ERROR: disk full"] else none)
        (pattern.new "ERROR") "a.log" 7).1, 0) :=
  process_reg_file_idempotent literal_regex_match (fun _ => none) _ "a.log" 7
    (Or.inr ⟨fun s => if s = "a.log" then some ["ok", "ERROR: disk full"] else none,
      pattern.new "ERROR", by decide⟩)

/-- C2, counterexample. Pattern `ERROR`, a new file whose only line is `ab`, a NUL character,
`ERROR tail`. The line matches and the call returns `0`, but the record holds the text
`ab`: `strcpy` stops at the NUL. The pair (line text, 1) is not what is stored. -/
theorem first_scan_cuts_line_at_nul :
    (process_reg_file literal_regex_match
        (fun s => if s = "a.log" then some ["ab\x00ERROR tail"] else none)
        (pattern.new "ERROR") "a.log" 7).2 = 0 ∧
    (process_reg_file literal_regex_match
        (fun s => if s = "a.log" then some ["ab\x00ERROR tail"] else none)
        (pattern.new "ERROR") "a.log" 7).1.record "a.log" =
      some { name := "a.log", mtime := 7, lines := [{ linestr := "ab", linenum := 1 }] } ∧
    matched_lines_spec (fun l => literal_regex_match l (pattern_exp "ERROR"))
        ["ab\x00ERROR tail"] =
      [{ linestr := "ab\x00ERROR tail", linenum := 1 }] := by
  decide

/-- C2, amended. First-time scan: when the pattern holds no record for the path and the file
is readable, `process_reg_file` returns `0` and the record then held for the path has the
supplied modification time and, as its lines, exactly the lines the matcher accepts, in
file order, each with its 1-based number and its text cut at the first NUL character; when
no line of the file has a NUL character the text is the whole line. -/
theorem process_reg_file_first_scan (regex_match : String → String → Bool)
    (fs : String → Option (List String)) (p : pattern) (filename : String) (mtime : Int)
    (content : List String)
    (hnew : filename ∉ p.names) (hfs : fs filename = some content)
    (hlen : content.length < SIZE_MOD) :
    (process_reg_file regex_match fs p filename mtime).2 = 0 ∧
    (process_reg_file regex_match fs p filename mtime).1.record filename =
      some { name := filename, mtime := mtime,
             lines := stored_lines
               (fun l => regex_match l (pattern_exp p.get_str)) content } ∧
    ((∀ l ∈ content, nul_free l) →
      (process_reg_file regex_match fs p filename mtime).1.record filename =
        some { name := filename, mtime := mtime,
               lines := matched_lines_spec
                 (fun l => regex_match l (pattern_exp p.get_str)) content }) := by
  have hfind := (find_file_none_iff p filename).2 hnew
  have hrec : (process_reg_file regex_match fs p filename mtime).1.record filename =
      some { name := filename, mtime := mtime,
             lines := stored_lines
               (fun l => regex_match l (pattern_exp p.get_str)) content } := by
    rw [process_reg_file_first regex_match fs hfind hfs, scanned_lines_eq_stored _ _ _ hlen]
    simp [record_eq_find, pattern.get_str]
  refine ⟨?_, hrec, ?_⟩
  · rw [process_reg_file_first regex_match fs hfind hfs]
  · intro hnul
    rw [hrec, stored_lines_nul_free _ _ hnul]

/-- Witness for the amended C2: pattern `ERROR`, file `a.log` with the lines `ok` and
`ERROR: disk full`; the record holds the single line number 2. -/
theorem process_reg_file_first_scan_witness :
    ("a.log" ∉ (pattern.new "ERROR").names ∧
      ["ok", "ERROR: disk full"].length < SIZE_MOD) ∧
    (process_reg_file literal_regex_match
        (fun s => if s = "a.log" then some ["ok", "ERROR: disk full"] else none)
        (pattern.new "ERROR") "a.log" 7).1.record "a.log" =
      some { name := "a.log", mtime := 7,
             lines := [{ linestr := "ERROR: disk full", linenum := 2 }] } :=
  ⟨⟨by decide, by decide⟩,
    (process_reg_file_first_scan literal_regex_match
      (fun s => if s = "a.log" then some ["ok", "ERROR: disk full"] else none)
      (pattern.new "ERROR") "a.log" 7 ["ok", "ERROR: disk full"]
      (by decide) (by decide) (by decide)).2.1.trans (by decide)⟩

/-- C3, counterexample. The record for `a.log` holds time 7 and a match at line 2; the file
now has the single line `cd`, a NUL character, `ERROR new`, and the supplied time is 8. The
rescan returns `0` and stores the text `cd`, not the text of the line. -/
theorem rescan_cuts_line_at_nul :
    (process_reg_file literal_regex_match
        (fun s => if s = "a.log" then some ["cd\x00ERROR new"] else none)
        { patternstr := "ERROR",
          files := [{ name := "a.log", mtime := 7,
                      lines := [{ linestr := "ERROR: disk full", linenum := 2 }] }],
          nfiles := 1 } "a.log" 8).2 = 0 ∧
    (process_reg_file literal_regex_match
        (fun s => if s = "a.log" then some ["cd\x00ERROR new"] else none)
        { patternstr := "ERROR",
          files := [{ name := "a.log", mtime := 7,
                      lines := [{ linestr := "ERROR: disk full", linenum := 2 }] }],
          nfiles := 1 } "a.log" 8).1.record "a.log" =
      some { name := "a.log", mtime := 8, lines := [{ linestr := "cd", linenum := 1 }] } ∧
    matched_lines_spec (fun l => literal_regex_match l (pattern_exp "ERROR"))
        ["cd\x00ERROR new"] =
      [{ linestr := "cd\x00ERROR new", linenum := 1 }] := by
  decide

/-- C3, amended. Freshness on rescan: when the record held for the path carries a
modification time other than the supplied one and the file is readable, `process_reg_file`
returns `0` and the record then has the supplied time and, as its lines, exactly the
matches of the new content, in file order with 1-based numbers, each text cut at the first
NUL character (the whole line when the file has no NUL character); nothing of the previous
lines is kept. -/
theorem process_reg_file_rescan_fresh (regex_match : String → String → Bool)
    (fs : String → Option (List String)) (p : pattern) (filename : String) (mtime : Int)
    (f0 : file) (content : List String)
    (hrec : p.record filename = some f0) (hmt : f0.get_mtime ≠ mtime)
    (hfs : fs filename = some content) (hlen : content.length < SIZE_MOD) :
    (process_reg_file regex_match fs p filename mtime).2 = 0 ∧
    (process_reg_file regex_match fs p filename mtime).1.record filename =
      some { name := filename, mtime := mtime,
             lines := stored_lines
               (fun l => regex_match l (pattern_exp p.get_str)) content } ∧
    ((∀ l ∈ content, nul_free l) →
      (process_reg_file regex_match fs p filename mtime).1.record filename =
        some { name := filename, mtime := mtime,
               lines := matched_lines_spec
                 (fun l => regex_match l (pattern_exp p.get_str)) content }) := by
  obtain ⟨i, hi, hd⟩ := find_of_record hrec
  have hmt2 : (p.deref i).mtime ≠ mtime := by rw [hd]; exact hmt
  have hnew : (process_reg_file regex_match fs p filename mtime).1.record filename =
      some { name := filename, mtime := mtime,
             lines := stored_lines
               (fun l => regex_match l (pattern_exp p.get_str)) content } := by
    rw [process_reg_file_rescan regex_match fs hi hmt2 hfs, scanned_lines_eq_stored _ _ _ hlen]
    exact record_store_hit _ hi rfl
  refine ⟨?_, hnew, ?_⟩
  · rw [process_reg_file_rescan regex_match fs hi hmt2 hfs]
  · intro hnul
    rw [hnew, stored_lines_nul_free _ _ hnul]

/-- Witness for the amended C3: a record holding a match at line 2 is rescanned over a
content that matches at lines 1 and 3; it ends with exactly those two lines. -/
theorem process_reg_file_rescan_fresh_witness :
    (({ patternstr := "ERROR",
        files := [{ name := "a.log", mtime := 7,
                    lines := [{ linestr := "ERROR: disk full", linenum := 2 }] }],
        nfiles := 1 } : pattern).record "a.log" =
      some { name := "a.log", mtime := 7,
             lines := [{ linestr := "ERROR: disk full", linenum := 2 }] } ∧
      (7 : Int) ≠ 8 ∧ ["ERROR one", "fine", "ERROR three"].length < SIZE_MOD) ∧
    (process_reg_file literal_regex_match
        (fun s => if s = "a.log" then some ["ERROR one", "fine", "ERROR three"] else none)
        { patternstr := "ERROR",
          files := [{ name := "a.log", mtime := 7,
                      lines := [{ linestr := "ERROR: disk full", linenum := 2 }] }],
          nfiles := 1 } "a.log" 8).1.record "a.log" =
      some { name := "a.log", mtime := 8,
             lines := [{ linestr := "ERROR one", linenum := 1 },
                       { linestr := "ERROR three", linenum := 3 }] } :=
  ⟨⟨by decide, by decide, by decide⟩,
    (process_reg_file_rescan_fresh literal_regex_match
      (fun s => if s = "a.log" then some ["ERROR one", "fine", "ERROR three"] else none)
      { patternstr := "ERROR",
        files := [{ name := "a.log", mtime := 7,
                    lines := [{ linestr := "ERROR: disk full", linenum := 2 }] }],
        nfiles := 1 } "a.log" 8
      { name := "a.log", mtime := 7,
        lines := [{ linestr := "ERROR: disk full", linenum := 2 }] }
      ["ERROR one", "fine", "ERROR three"]
      (by decide) (by decide) (by decide) (by decide)).2.1.trans (by decide)⟩

/-- C4, counterexample. A record for `a.log` with time 7 and one line; the file cannot be
opened and the supplied time is 8. The call returns `-1`, the time is still 7, but the
line is gone: the record is not what it was before the call. -/
theorem unreadable_rescan_loses_lines :
    (process_reg_file literal_regex_match (fun _ => none)
        { patternstr := "ERROR",
          files := [{ name := "a.log", mtime := 7,
                      lines := [{ linestr := "ERROR: disk full", linenum := 2 }] }],
          nfiles := 1 } "a.log" 8).2 = -1 ∧
    ({ patternstr := "ERROR",
       files := [{ name := "a.log", mtime := 7,
                   lines := [{ linestr := "ERROR: disk full", linenum := 2 }] }],
       nfiles := 1 } : pattern).pair "a.log" =
      some (7, [{ linestr := "ERROR: disk full", linenum := 2 }]) ∧
    (process_reg_file literal_regex_match (fun _ => none)
        { patternstr := "ERROR",
          files := [{ name := "a.log", mtime := 7,
                      lines := [{ linestr := "ERROR: disk full", linenum := 2 }] }],
          nfiles := 1 } "a.log" 8).1.pair "a.log" = some (7, []) := by
  decide

/-- C4, amended. When the record held for the path carries a modification time other than
the supplied one and the file cannot be opened, `process_reg_file` returns `-1`, the record
keeps its name and its modification time, and its lines are empty: `remove_lines` has run
before the file is opened. -/
theorem process_reg_file_unreadable_rescan (regex_match : String → String → Bool)
    (fs : String → Option (List String)) (p : pattern) (filename : String) (mtime : Int)
    (f0 : file)
    (hrec : p.record filename = some f0) (hmt : f0.get_mtime ≠ mtime)
    (hfs : fs filename = none) :
    (process_reg_file regex_match fs p filename mtime).2 = -1 ∧
    (process_reg_file regex_match fs p filename mtime).1.record filename =
      some { name := filename, mtime := f0.mtime, lines := [] } := by
  obtain ⟨i, hi, hd⟩ := find_of_record hrec
  have hmt2 : (p.deref i).mtime ≠ mtime := by rw [hd]; exact hmt
  rw [process_reg_file_rescan_fail regex_match fs hi hmt2 hfs, hd]
  exact ⟨rfl, record_store_hit _ hi rfl⟩

/-- Witness for the amended C4, at the input of the counterexample. -/
theorem process_reg_file_unreadable_rescan_witness :
    (({ patternstr := "ERROR",
        files := [{ name := "a.log", mtime := 7,
                    lines := [{ linestr := "ERROR: disk full", linenum := 2 }] }],
        nfiles := 1 } : pattern).record "a.log" =
      some { name := "a.log", mtime := 7,
             lines := [{ linestr := "ERROR: disk full", linenum := 2 }] } ∧
      (7 : Int) ≠ 8) ∧
    (process_reg_file literal_regex_match (fun _ => none)
        { patternstr := "ERROR",
          files := [{ name := "a.log", mtime := 7,
                      lines := [{ linestr := "ERROR: disk full", linenum := 2 }] }],
          nfiles := 1 } "a.log" 8).1.record "a.log" =
      some { name := "a.log", mtime := 7, lines := [] } :=
  ⟨⟨by decide, by decide⟩,
    (process_reg_file_unreadable_rescan literal_regex_match (fun _ => none)
      { patternstr := "ERROR",
        files := [{ name := "a.log", mtime := 7,
                    lines := [{ linestr := "ERROR: disk full", linenum := 2 }] }],
        nfiles := 1 } "a.log" 8
      { name := "a.log", mtime := 7,
        lines := [{ linestr := "ERROR: disk full", linenum := 2 }] }
      (by decide) (by decide) rfl).2⟩

/-! ## The steps of one scan -/

theorem find_file_store {p : pattern} {n : String} {i : Nat} (g : file)
    (h : p.find_file n = some i) (hg : g.name = n) :
    (p.store i g).find_file n = some i := by
  obtain ⟨_, hf, hname⟩ := find_file_deref h
  rw [← h]
  exact find_file_loop_congr n (map_name_set_same hf (by rw [hg, hname]))

theorem pair_store_hit {p : pattern} {n : String} {i : Nat} (g : file)
    (h : p.find_file n = some i) (hg : g.name = n) :
    (p.store i g).pair n = some (g.mtime, g.lines) := by
  simp [pattern.pair, record_store_hit g h hg]

theorem scan_steps_pairs (regex_match : String → String → Bool)
    (fs : String → Option (List String)) {q : pattern} {n : String} {i : Nat} (m0 mtime : Int)
    {content : List String}
    (hfind : q.find_file n = some i)
    (hd : q.deref i = { name := n, mtime := m0, lines := [] })
    (hfs : fs n = some content) :
    (process_reg_file_scan_steps regex_match fs q i mtime).map (fun s => s.pair n) =
      [some (m0, scanned_lines regex_match q.get_str content),
       some (mtime, scanned_lines regex_match q.get_str content)] := by
  obtain ⟨hlt, _, _⟩ := find_file_deref hfind
  have hfs2 : fs (q.deref i).name = some content := by rw [hd]; exact hfs
  have h0 : ¬ ((0 : Int) < 0) := by decide
  simp only [process_reg_file_scan_steps,
    process_pattern_readable regex_match fs _ _ content hfs2, h0, if_false,
    deref_store _ hlt, store_store, List.map_cons, List.map_nil]
  rw [pair_store_hit _ hfind (by rw [hd]), pair_store_hit _ hfind (by simp [file.set_mtime, hd])]
  simp [hd, file.set_mtime]

theorem scan_steps_last (regex_match : String → String → Bool)
    (fs : String → Option (List String)) (q : pattern) (i : Nat) (mtime : Int) :
    (process_reg_file_scan_steps regex_match fs q i mtime).getLast? =
      some (process_reg_file_scan regex_match fs q i mtime).1 := by
  simp only [process_reg_file_scan_steps, process_reg_file_scan]
  split <;> simp

theorem process_reg_file_steps_last (regex_match : String → String → Bool)
    (fs : String → Option (List String)) (p : pattern) (n : String) (mtime : Int) :
    (process_reg_file_steps regex_match fs p n mtime).getLast? =
      some (process_reg_file regex_match fs p n mtime).1 := by
  simp only [process_reg_file_steps, process_reg_file]
  cases p.find_file n with
  | none =>
    simp only [List.getLast?_cons_cons]
    have h := scan_steps_last regex_match fs (p.create_new_file n).1 (p.create_new_file n).2 mtime
    revert h
    simp only [process_reg_file_scan_steps]
    split <;> simp
  | some i =>
    simp only
    split
    · simp
    · have h := scan_steps_last regex_match fs (p.store i (p.deref i).remove_lines) i mtime
      revert h
      simp only [process_reg_file_scan_steps]
      split <;> simp

/-- C5, counterexample. The record for `a.log` holds time 7 and a match at line 2; the file
now matches at lines 1 and 3 and the supplied time is 8. Between its steps
`process_reg_file` passes through a state with the old time and no lines, and through a
state with the old time and the new lines; neither is the pair before the call or the
final pair. -/
theorem steps_expose_mixed_pairs :
    (process_reg_file_steps literal_regex_match
        (fun s => if s = "a.log" then some ["ERROR one", "fine", "ERROR three"] else none)
        { patternstr := "ERROR",
          files := [{ name := "a.log", mtime := 7,
                      lines := [{ linestr := "ERROR: disk full", linenum := 2 }] }],
          nfiles := 1 } "a.log" 8).map (fun s => s.pair "a.log") =
      [some (7, [{ linestr := "ERROR: disk full", linenum := 2 }]),
       some (7, []),
       some (7, [{ linestr := "ERROR one", linenum := 1 },
                 { linestr := "ERROR three", linenum := 3 }]),
       some (8, [{ linestr := "ERROR one", linenum := 1 },
                 { linestr := "ERROR three", linenum := 3 }])] := by
  decide

/-- C5, amended. When the call does not take the unchanged-file shortcut and the file is
readable, the record of the path passes through exactly these pairs, in this order: the
pair before the call (no record for a new path), the old time (`0` for a new record)
with no lines, the old time with the new lines, the supplied time with the new lines.
The time changes only in the last step, when the lines are already final, and the last
state is the one `process_reg_file` returns. -/
theorem process_reg_file_steps_pairs (regex_match : String → String → Bool)
    (fs : String → Option (List String)) (p : pattern) (filename : String) (mtime : Int)
    (content : List String)
    (hchg : (p.record filename).map file.get_mtime ≠ some mtime)
    (hfs : fs filename = some content) :
    (process_reg_file_steps regex_match fs p filename mtime).map (fun s => s.pair filename) =
      [p.pair filename,
       some (((p.pair filename).getD (0, [])).1, []),
       some (((p.pair filename).getD (0, [])).1, scanned_lines regex_match p.get_str content),
       some (mtime, scanned_lines regex_match p.get_str content)] ∧
    (process_reg_file_steps regex_match fs p filename mtime).getLast? =
      some (process_reg_file regex_match fs p filename mtime).1 := by
  refine ⟨?_, process_reg_file_steps_last regex_match fs p filename mtime⟩
  cases hfind : p.find_file filename with
  | none =>
    have hpair : p.pair filename = none := by simp [pattern.pair, pattern.record, hfind]
    have hc : (p.create_new_file filename).1.find_file filename = some 0 := by
      simp [pattern.create_new_file, pattern.find_file, pattern.find_file_loop, file.new,
        file.get_name]
    have hd : (p.create_new_file filename).1.deref 0 =
        { name := filename, mtime := 0, lines := [] } := by
      apply deref_eq
      simp [pattern.create_new_file, file.new]
    have hs := scan_steps_pairs regex_match fs 0 mtime hc hd hfs
    simp only [process_reg_file_steps, hfind, List.map_cons, hpair]
    have hcp : (p.create_new_file filename).1.pair filename = some (0, []) := by
      simp [pattern.pair, record_of_find hc, hd]
    rw [hcp]
    have hcreate2 : (p.create_new_file filename).2 = 0 := rfl
    rw [hcreate2, hs]
    simp [pattern.create_new_file, pattern.get_str]
  | some i =>
    obtain ⟨hlt, _, hname⟩ := find_file_deref hfind
    have hmt : (p.deref i).mtime ≠ mtime := by
      intro h
      apply hchg
      simp [record_of_find hfind, file.get_mtime, h]
    have hdt : difftime mtime (p.deref i).get_mtime ≠ 0 := by
      simp only [difftime, file.get_mtime]
      intro h
      exact hmt (by omega)
    have hpair : p.pair filename = some ((p.deref i).mtime, (p.deref i).lines) := by
      simp [pattern.pair, record_of_find hfind]
    have hf1 := find_file_store (p.deref i).remove_lines hfind
      (by simp [file.remove_lines, hname])
    have hd1 : (p.store i (p.deref i).remove_lines).deref i =
        { name := filename, mtime := (p.deref i).mtime, lines := [] } := by
      rw [deref_store _ hlt]
      simp [file.remove_lines, hname]
    have hs := scan_steps_pairs regex_match fs (p.deref i).mtime mtime hf1 hd1 hfs
    simp only [process_reg_file_steps, hfind, hdt, if_false, List.map_cons, hpair]
    rw [hs, pair_store_hit _ hfind (by simp [file.remove_lines, hname])]
    simp [file.remove_lines, pattern.get_str, pattern.store]

/-- Witness for the amended C5, at the input of the counterexample. -/
theorem process_reg_file_steps_pairs_witness :
    ((({ patternstr := "ERROR",
         files := [{ name := "a.log", mtime := 7,
                     lines := [{ linestr := "ERROR: disk full", linenum := 2 }] }],
         nfiles := 1 } : pattern).record "a.log").map file.get_mtime ≠ some 8) ∧
    (process_reg_file_steps literal_regex_match
        (fun s => if s = "a.log" then some ["ERROR one", "fine", "ERROR three"] else none)
        { patternstr := "ERROR",
          files := [{ name := "a.log", mtime := 7,
                      lines := [{ linestr := "ERROR: disk full", linenum := 2 }] }],
          nfiles := 1 } "a.log" 8).getLast? =
      some (process_reg_file literal_regex_match
        (fun s => if s = "a.log" then some ["ERROR one", "fine", "ERROR three"] else none)
        { patternstr := "ERROR",
          files := [{ name := "a.log", mtime := 7,
                      lines := [{ linestr := "ERROR: disk full", linenum := 2 }] }],
          nfiles := 1 } "a.log" 8).1 :=
  ⟨by decide,
    (process_reg_file_steps_pairs literal_regex_match
      (fun s => if s = "a.log" then some ["ERROR one", "fine", "ERROR three"] else none)
      { patternstr := "ERROR",
        files := [{ name := "a.log", mtime := 7,
                    lines := [{ linestr := "ERROR: disk full", linenum := 2 }] }],
        nfiles := 1 } "a.log" 8 ["ERROR one", "fine", "ERROR three"]
      (by decide) (by decide)).2⟩

/-! ## The static partition of the file list -/

theorem succ_mul_div_le {t id n : Nat} (hid : id < t) : id * (n / t) + n / t ≤ n := by
  have h1 : (id + 1) * (n / t) ≤ t * (n / t) := Nat.mul_le_mul_right _ hid
  have h2 : t * (n / t) ≤ n := Nat.mul_div_le n t
  have h3 : (id + 1) * (n / t) = id * (n / t) + n / t := by ring
  generalize n / t = q at *
  omega

theorem thread_range_eq {t id n : Nat} (hid : id < t) (hn : n < SIZE_MOD) :
    thread_range t id n =
      (id * (n / t), if id + 1 = t then n else id * (n / t) + n / t) := by
  have h := succ_mul_div_le (n := n) hid
  have h3 : ((id : Int) = (t : Int) - 1) ↔ id + 1 = t := by omega
  simp only [thread_range, h3]
  generalize n / t = q at *
  have h1 : (id * q) % SIZE_MOD = id * q := Nat.mod_eq_of_lt (by omega)
  have h2 : (id * q + q) % SIZE_MOD = id * q + q := Nat.mod_eq_of_lt (by omega)
  simp only [h1, h2]
  split <;> rfl

theorem thread_range_cover {t n : Nat} (ht : 1 ≤ t) (hn : n < SIZE_MOD) (i : Nat) (hi : i < n) :
    ∃! id, id < t ∧ (thread_range t id n).1 ≤ i ∧ i < (thread_range t id n).2 := by
  have hre : ∀ id, id < t → thread_range t id n =
      (id * (n / t), if id + 1 = t then n else id * (n / t) + n / t) :=
    fun id hid => thread_range_eq hid hn
  generalize n / t = q at hre
  by_cases hlast : (t - 1) * q ≤ i
  · refine ⟨t - 1, ⟨by omega, ?_, ?_⟩, ?_⟩
    · rw [hre _ (by omega)]; exact hlast
    · rw [hre _ (by omega)]
      have : t - 1 + 1 = t := by omega
      simp [this, hi]
    · rintro id ⟨hid, h1, h2⟩
      rw [hre _ hid] at h1 h2
      by_contra hne
      have hlt : id + 1 ≤ t - 1 := by omega
      have hne2 : ¬ (id + 1 = t) := by omega
      simp only [hne2, if_false] at h2
      have h3 : (id + 1) * q ≤ (t - 1) * q := Nat.mul_le_mul_right _ hlt
      have h4 : (id + 1) * q = id * q + q := by ring
      omega
  · have hlast2 : i < (t - 1) * q := by omega
    have hq : 0 < q := by
      rcases Nat.eq_zero_or_pos q with h | h
      · rw [h] at hlast2; simp at hlast2
      · exact h
    have hdiv : i / q < t - 1 := (Nat.div_lt_iff_lt_mul hq).2 hlast2
    have hmul : i / q * q ≤ i := Nat.div_mul_le_self i q
    have hlt2 : i < i / q * q + q := by
      have h5 : i < (i / q + 1) * q := (Nat.div_lt_iff_lt_mul hq).1 (Nat.lt_add_one _)
      have h6 : (i / q + 1) * q = i / q * q + q := by ring
      omega
    refine ⟨i / q, ⟨by omega, ?_, ?_⟩, ?_⟩
    · rw [hre _ (by omega)]; exact hmul
    · rw [hre _ (by omega)]
      have hne2 : ¬ (i / q + 1 = t) := by omega
      simp only [hne2, if_false]
      exact hlt2
    · rintro id ⟨hid, h1, h2⟩
      rw [hre _ hid] at h1 h2
      simp only at h1
      by_cases he : id + 1 = t
      · have : id = t - 1 := by omega
        rw [this] at h1
        omega
      · simp only [he, if_false] at h2
        have h7 : id * q + q = (id + 1) * q := by ring
        rw [h7] at h2
        have ha : id ≤ i / q := (Nat.le_div_iff_mul_le hq).2 h1
        have hb : i / q < id + 1 := (Nat.div_lt_iff_lt_mul hq).2 h2
        omega
/-! ## Workers as sequences of calls -/

theorem run_calls_append (regex_match : String → String → Bool) (p : pattern)
    (l1 l2 : List call) :
    run_calls regex_match p (l1 ++ l2) =
      run_calls regex_match (run_calls regex_match p l1) l2 := by
  induction l1 generalizing p with
  | nil => rfl
  | cons c l1 ih => exact ih _

theorem thread_loop_eq (regex_match : String → String → Bool)
    (fs : String → Option (List String)) (files : List (String × Int)) (k i : Nat)
    (p : pattern) (h : i + k ≤ files.length) :
    process_directory_thread_loop regex_match fs files k i p =
      some (run_calls regex_match p
        (((files.drop i).take k).map (fun x => { fs := fs, filename := x.1, mtime := x.2 }))) := by
  induction k generalizing i p with
  | zero => simp [process_directory_thread_loop, run_calls]
  | succ k ih =>
    have hi : i < files.length := by omega
    have hget : files.get? i = some files[i] := by
      rw [List.get?_eq_getElem?, List.getElem?_eq_getElem hi]
    simp only [process_directory_thread_loop, hget]
    rw [ih (i + 1) _ (by omega), List.drop_eq_getElem_cons hi]
    simp [run_calls]

theorem run_threads_prefix (regex_match : String → String → Bool)
    (fs : String → Option (List String)) (t : Nat) (files : List (String × Int))
    (p : pattern) (hn : files.length < SIZE_MOD) (k : Nat) (hk : k + 1 ≤ t) :
    run_threads regex_match fs t files k p =
      some (run_calls regex_match p
        ((files.take (k * (files.length / t))).map
          (fun x => { fs := fs, filename := x.1, mtime := x.2 }))) := by
  induction k with
  | zero => simp [run_threads, run_calls]
  | succ k ih =>
    have hkt : k < t := by omega
    have hne : ¬ (k + 1 = t) := by omega
    have hle := succ_mul_div_le (n := files.length) hkt
    simp only [run_threads, ih (by omega), process_directory_thread,
      thread_range_eq hkt hn, hne, if_false, Nat.add_sub_cancel_left]
    rw [thread_loop_eq _ _ _ _ _ _ hle, ← run_calls_append, ← List.map_append]
    have h2 : (k + 1) * (files.length / t) =
        k * (files.length / t) + files.length / t := by ring
    rw [h2, List.take_add]

theorem run_threads_eq (regex_match : String → String → Bool)
    (fs : String → Option (List String)) (t : Nat) (files : List (String × Int))
    (p : pattern) (ht : 1 ≤ t) (hn : files.length < SIZE_MOD) :
    run_threads regex_match fs t files t p =
      some (run_calls regex_match p
        (files.map (fun x => { fs := fs, filename := x.1, mtime := x.2 }))) := by
  obtain ⟨k, rfl⟩ : ∃ k, t = k + 1 := ⟨t - 1, by omega⟩
  have hle := succ_mul_div_le (n := files.length) (Nat.lt_succ_self k)
  have hle2 : k * (files.length / (k + 1)) ≤ files.length :=
    Nat.le_trans (Nat.le_add_right _ _) hle
  simp only [run_threads, run_threads_prefix regex_match fs (k + 1) files p hn k (le_refl _),
    process_directory_thread, thread_range_eq (Nat.lt_succ_self k) hn, if_true]
  rw [thread_loop_eq _ _ _ _ _ _ (le_of_eq (Nat.add_sub_of_le hle2)), ← run_calls_append,
    ← List.map_append]
  have h3 : List.take (files.length - k * (files.length / (k + 1)))
      (List.drop (k * (files.length / (k + 1))) files) =
      List.drop (k * (files.length / (k + 1))) files := by
    apply List.take_of_length_le
    simp
  rw [h3, List.take_append_drop]

/-- C6. Partition completeness: for a list of `n >= 1` files and `1 <= num_threads <= n`,
every index below `n` lies in the range `[start, end)` of exactly one worker id below
`num_threads`, no range reaches beyond `n`, and the workers together make exactly the calls
of `process_reg_file` for the enumerated files, each once, in list order when the workers
run one after the other. -/
theorem partition_complete (regex_match : String → String → Bool)
    (fs : String → Option (List String)) (num_threads : Nat) (files : List (String × Int))
    (p : pattern)
    (_hn : 1 ≤ files.length) (ht : 1 ≤ num_threads) (_htn : num_threads ≤ files.length)
    (hsize : files.length < SIZE_MOD) :
    (∀ i, i < files.length →
      ∃! id, id < num_threads ∧ (thread_range num_threads id files.length).1 ≤ i ∧
        i < (thread_range num_threads id files.length).2) ∧
    (∀ id, id < num_threads → (thread_range num_threads id files.length).2 ≤ files.length) ∧
    run_threads regex_match fs num_threads files num_threads p =
      some (run_calls regex_match p
        (files.map (fun x => { fs := fs, filename := x.1, mtime := x.2 }))) := by
  refine ⟨fun i hi => thread_range_cover ht hsize i hi, ?_,
    run_threads_eq regex_match fs num_threads files p ht hsize⟩
  intro id hid
  rw [thread_range_eq hid hsize]
  have hle := succ_mul_div_le (n := files.length) hid
  simp only
  split
  · exact le_refl _
  · exact hle

/-- Witness for C6: five files and two workers. -/
theorem partition_complete_witness :
    (1 ≤ [("a", (1 : Int)), ("b", 1), ("c", 1), ("d", 1), ("e", 1)].length ∧ 1 ≤ 2 ∧
      2 ≤ [("a", (1 : Int)), ("b", 1), ("c", 1), ("d", 1), ("e", 1)].length ∧
      [("a", (1 : Int)), ("b", 1), ("c", 1), ("d", 1), ("e", 1)].length < SIZE_MOD) ∧
    (∀ i, i < [("a", (1 : Int)), ("b", 1), ("c", 1), ("d", 1), ("e", 1)].length →
      ∃! id, id < 2 ∧
        (thread_range 2 id [("a", (1 : Int)), ("b", 1), ("c", 1), ("d", 1), ("e", 1)].length).1
          ≤ i ∧
        i < (thread_range 2 id
          [("a", (1 : Int)), ("b", 1), ("c", 1), ("d", 1), ("e", 1)].length).2) :=
  ⟨⟨by decide, by decide, by decide, by decide⟩,
    (partition_complete literal_regex_match (fun _ => none) 2
      [("a", 1), ("b", 1), ("c", 1), ("d", 1), ("e", 1)] (pattern.new "x")
      (by decide) (by decide) (by decide) (by decide)).1⟩

/-- C7, the code at a failing input. A directory holds the readable `d/a.log` and the
unreadable `d/b.log`. The scan of `d/b.log` fails, scanning it as a single file returns
`-1`, yet `process_directory`, and `process_input` on the directory, return `0`: the
worker discards what `process_reg_file` returns. -/
theorem process_directory_drops_failure :
    (process_reg_file literal_regex_match
        (fun s => if s = "d/a.log" then some ["ok", "ERROR: disk full"] else none)
        (pattern.new "ERROR") "d/b.log" 7).2 = -1 ∧
    (process_input literal_regex_match
        (fun s => if s = "d/a.log" then some ["ok", "ERROR: disk full"] else none)
        1 (pattern.new "ERROR") (dirent.regular "d/b.log" 7)).map Prod.snd = some (-1) ∧
    (process_directory literal_regex_match
        (fun s => if s = "d/a.log" then some ["ok", "ERROR: disk full"] else none)
        1 (pattern.new "ERROR")
        (dirents.cons (dirent.regular "d/a.log" 7)
          (dirents.cons (dirent.regular "d/b.log" 7) dirents.nil))).map Prod.snd = some 0 ∧
    (process_input literal_regex_match
        (fun s => if s = "d/a.log" then some ["ok", "ERROR: disk full"] else none)
        1 (pattern.new "ERROR")
        (dirent.directory "d" "d"
          (dirents.cons (dirent.regular "d/a.log" 7)
            (dirents.cons (dirent.regular "d/b.log" 7) dirents.nil)))).map Prod.snd =
      some 0 := by
  decide

/-! ## The shape of the state after one call -/

theorem store_deref_self (p : pattern) (i : Nat) (h : i < p.files.length) :
    p.store i (p.deref i) = p := by
  have hd : p.deref i = p.files[i] := deref_eq (List.getElem?_eq_getElem h)
  cases p with
  | mk str files nfiles =>
    simp only [pattern.store, pattern.mk.injEq, true_and, and_true]
    rw [hd]
    apply List.ext_getElem?
    intro j
    by_cases hj : i = j
    · subst hj
      simp [List.getElem?_set_self h, List.getElem?_eq_getElem h]
    · simp [List.getElem?_set_ne hj]

theorem process_reg_file_shape (regex_match : String → String → Bool)
    (fs : String → Option (List String)) (p : pattern) (n : String) (mtime : Int) :
    ∃ g : file, g.name = n ∧
      ((∃ i, p.find_file n = some i ∧ g = p.deref i) ∨ g.lines = [] ∨
        ∃ content, fs n = some content ∧
          g.lines = scanned_lines regex_match p.patternstr content) ∧
      ((∃ i, p.find_file n = some i ∧
          (process_reg_file regex_match fs p n mtime).1 = p.store i g) ∨
       (p.find_file n = none ∧
          (process_reg_file regex_match fs p n mtime).1 =
            { patternstr := p.patternstr, files := g :: p.files,
              nfiles := (p.nfiles + 1) % SIZE_MOD })) := by
  cases hfind : p.find_file n with
  | some i =>
    obtain ⟨hlt, _, hname⟩ := find_file_deref hfind
    by_cases hmt : (p.deref i).mtime = mtime
    · refine ⟨p.deref i, hname, Or.inl ⟨i, rfl, rfl⟩, Or.inl ⟨i, rfl, ?_⟩⟩
      rw [process_reg_file_skip regex_match fs hfind hmt, store_deref_self p i hlt]
    · cases hfs : fs n with
      | none =>
        exact ⟨{ name := n, mtime := (p.deref i).mtime, lines := [] },
          rfl, Or.inr (Or.inl rfl), Or.inl ⟨i, rfl, by
          rw [process_reg_file_rescan_fail regex_match fs hfind hmt hfs]⟩⟩
      | some content =>
        exact ⟨{ name := n, mtime := mtime,
                 lines := scanned_lines regex_match p.patternstr content },
          rfl, Or.inr (Or.inr ⟨content, rfl, rfl⟩), Or.inl ⟨i, rfl, by
          rw [process_reg_file_rescan regex_match fs hfind hmt hfs]⟩⟩
  | none =>
    cases hfs : fs n with
    | none =>
      exact ⟨file.new n, rfl, Or.inr (Or.inl rfl), Or.inr ⟨rfl, by
        rw [process_reg_file_first_fail regex_match fs hfind hfs]⟩⟩
    | some content =>
      exact ⟨{ name := n, mtime := mtime,
               lines := scanned_lines regex_match p.patternstr content },
        rfl, Or.inr (Or.inr ⟨content, rfl, rfl⟩), Or.inr ⟨rfl, by
        rw [process_reg_file_first regex_match fs hfind hfs]⟩⟩

theorem process_reg_file_patternstr (regex_match : String → String → Bool)
    (fs : String → Option (List String)) (p : pattern) (n : String) (mtime : Int) :
    (process_reg_file regex_match fs p n mtime).1.patternstr = p.patternstr := by
  obtain ⟨g, _, _, h | h⟩ := process_reg_file_shape regex_match fs p n mtime
  · obtain ⟨i, _, h⟩ := h
    rw [h]
    rfl
  · rw [h.2]

theorem process_reg_file_record_other (regex_match : String → String → Bool)
    (fs : String → Option (List String)) (p : pattern) (n m : String) (mtime : Int)
    (hm : m ≠ n) :
    (process_reg_file regex_match fs p n mtime).1.record m = p.record m := by
  obtain ⟨g, hg, _, h | h⟩ := process_reg_file_shape regex_match fs p n mtime
  · obtain ⟨i, hi, h⟩ := h
    rw [h]
    exact record_store_miss g hi hg hm
  · rw [h.2, record_eq_find, record_eq_find]
    simp [List.find?_cons, hg, hm]

theorem process_reg_file_names (regex_match : String → String → Bool)
    (fs : String → Option (List String)) (p : pattern) (n : String) (mtime : Int) :
    (process_reg_file regex_match fs p n mtime).1.names =
      if n ∈ p.names then p.names else n :: p.names := by
  obtain ⟨g, hg, _, h | h⟩ := process_reg_file_shape regex_match fs p n mtime
  · obtain ⟨i, hi, h⟩ := h
    obtain ⟨_, hf, hname⟩ := find_file_deref hi
    have hmem : n ∈ p.names := by
      by_contra hc
      rw [(find_file_none_iff p n).2 hc] at hi
      cases hi
    rw [h, if_pos hmem]
    exact map_name_set_same hf (by rw [hg, hname])
  · have hmem : n ∉ p.names := (find_file_none_iff p n).1 h.1
    rw [h.2, if_neg hmem]
    simp [pattern.names, file.get_name, hg]

/-! ## Sequences of calls -/

theorem run_calls_patternstr (regex_match : String → String → Bool) (p : pattern)
    (calls : List call) : (run_calls regex_match p calls).patternstr = p.patternstr := by
  induction calls generalizing p with
  | nil => rfl
  | cons c rest ih =>
    simp only [run_calls]
    rw [ih, process_reg_file_patternstr]

theorem run_calls_record_other (regex_match : String → String → Bool) (p : pattern)
    (calls : List call) (m : String) (hm : ∀ c ∈ calls, m ≠ c.filename) :
    (run_calls regex_match p calls).record m = p.record m := by
  induction calls generalizing p with
  | nil => rfl
  | cons c rest ih =>
    simp only [run_calls]
    rw [ih _ (fun d hd => hm d (List.mem_cons_of_mem _ hd)),
      process_reg_file_record_other _ _ _ _ _ _ (hm c (List.mem_cons_self _ _))]

theorem process_reg_file_names_nodup (regex_match : String → String → Bool)
    (fs : String → Option (List String)) (p : pattern) (n : String) (mtime : Int)
    (h : p.names.Nodup) : (process_reg_file regex_match fs p n mtime).1.names.Nodup := by
  rw [process_reg_file_names]
  split
  · exact h
  · rename_i hn
    exact List.nodup_cons.2 ⟨hn, h⟩

theorem run_calls_names_nodup (regex_match : String → String → Bool) (p : pattern)
    (calls : List call) (h : p.names.Nodup) : (run_calls regex_match p calls).names.Nodup := by
  induction calls generalizing p with
  | nil => exact h
  | cons c rest ih =>
    simp only [run_calls]
    exact ih _ (process_reg_file_names_nodup _ _ _ _ _ h)

theorem readable_call_record (regex_match : String → String → Bool)
    (fs : String → Option (List String)) (p : pattern) (n : String) (mtime : Int)
    (content : List String) (hfs : fs n = some content) (hlen : content.length < SIZE_MOD) :
    ∃ g, (process_reg_file regex_match fs p n mtime).1.record n = some g ∧
      g.get_mtime = mtime ∧
      ((p.record n).map file.get_mtime ≠ some mtime →
        g = { name := n, mtime := mtime,
              lines := stored_lines
                (fun l => regex_match l (pattern_exp p.get_str)) content }) ∧
      (∀ f, p.record n = some f → f.get_mtime = mtime → g = f) := by
  cases hrec : p.record n with
  | none =>
    have hfind : p.find_file n = none := by simpa [pattern.record] using hrec
    refine ⟨{ name := n, mtime := mtime,
              lines := stored_lines (fun l => regex_match l (pattern_exp p.get_str)) content },
      ?_, rfl, fun _ => rfl, fun f hf => by cases hf⟩
    rw [process_reg_file_first regex_match fs hfind hfs, scanned_lines_eq_stored _ _ _ hlen]
    simp [record_eq_find, pattern.get_str]
  | some f =>
    obtain ⟨i, hi, hd⟩ := find_of_record hrec
    by_cases hmt : f.get_mtime = mtime
    · refine ⟨f, ?_, hmt, fun h => absurd (by simp [hmt]) h, fun f2 hf2 _ => ?_⟩
      · rw [process_reg_file_skip regex_match fs hi (by rw [hd]; exact hmt), hrec]
      · simp only [Option.some.injEq] at hf2
        exact hf2
    · have hmt2 : (p.deref i).mtime ≠ mtime := by rw [hd]; exact hmt
      refine ⟨{ name := n, mtime := mtime,
                lines := stored_lines (fun l => regex_match l (pattern_exp p.get_str)) content },
        ?_, rfl, fun _ => rfl, fun f2 hf2 h2 => ?_⟩
      · rw [process_reg_file_rescan regex_match fs hi hmt2 hfs,
          scanned_lines_eq_stored _ _ _ hlen]
        exact record_store_hit _ hi rfl
      · simp only [Option.some.injEq] at hf2
        rw [← hf2] at h2
        exact absurd h2 hmt

theorem run_files_record (regex_match : String → String → Bool)
    (fs : String → Option (List String)) (l : List (String × Int)) (p : pattern)
    (hdistinct : (l.map Prod.fst).Nodup)
    (hlen : ∀ n content, fs n = some content → content.length < SIZE_MOD)
    (x : String × Int) (hx : x ∈ l) (content : List String) (hfs : fs x.1 = some content) :
    ∃ g, (run_calls regex_match p
        (l.map (fun y => { fs := fs, filename := y.1, mtime := y.2 }))).record x.1 = some g ∧
      g.get_mtime = x.2 ∧
      ((p.record x.1).map file.get_mtime ≠ some x.2 →
        g = { name := x.1, mtime := x.2,
              lines := stored_lines
                (fun l => regex_match l (pattern_exp p.get_str)) content }) ∧
      (∀ f, p.record x.1 = some f → f.get_mtime = x.2 → g = f) := by
  induction l generalizing p with
  | nil => simp at hx
  | cons c rest ih =>
    simp only [List.map_cons, List.nodup_cons, List.mem_map, not_exists, not_and] at hdistinct
    simp only [List.map_cons, run_calls]
    rcases List.mem_cons.1 hx with hxc | hxr
    · subst hxc
      rw [run_calls_record_other]
      · exact readable_call_record regex_match fs p x.1 x.2 content hfs (hlen _ _ hfs)
      · intro d hd
        simp only [List.mem_map] at hd
        obtain ⟨y, hy, rfl⟩ := hd
        intro heq
        exact hdistinct.1 y hy heq.symm
    · have hne : x.1 ≠ c.1 := by
        intro heq
        exact hdistinct.1 x hxr heq
      have hstr : (process_reg_file regex_match fs p c.1 c.2).1.get_str = p.get_str :=
        process_reg_file_patternstr regex_match fs p c.1 c.2
      have := ih (process_reg_file regex_match fs p c.1 c.2).1 hdistinct.2 hxr
      rw [hstr, process_reg_file_record_other _ _ _ _ _ _ hne] at this
      exact this

/-- C8, counterexample. The pattern holds a record for `a` with time 5 and no lines, left by
a scan of `a` when it had no match. The worker's slice is the unreadable `b` followed by
`a`, enumerated with time 5, which now has a match at line 1. The worker reaches `a`, but
the stored time equals the enumerated one, so `a` is skipped and its record still has no
lines: they are not the matches of its content. -/
theorem worker_skips_file_with_same_mtime :
    (process_directory_thread literal_regex_match
        (fun s => if s = "a" then some ["ERROR 1"] else none) 1 0
        (process_reg_file literal_regex_match (fun _ => some ["ok"])
          (pattern.new "ERROR") "a" 5).1
        [("b", 5), ("a", 5)]).map (fun q => q.record "a") =
      some (some { name := "a", mtime := 5, lines := [] }) ∧
    matched_lines_spec (fun l => literal_regex_match l (pattern_exp "ERROR")) ["ERROR 1"] =
      [{ linestr := "ERROR 1", linenum := 1 }] := by
  decide

/-- C8, amended. Per-file failures are isolated: a worker runs over its slice of a file list
with distinct paths, in a file system where some files may be unreadable. The worker runs
to the end of its slice, and every readable file of the slice, also those placed after an
unreadable one, then has a record with the enumerated modification time. When the pattern
did not already hold a record with that time for the file, the lines of the record are
exactly the matches of its content, each text cut at the first NUL character; when it
did, the file is skipped and the record is the one held before. -/
theorem worker_isolates_failures (regex_match : String → String → Bool)
    (fs : String → Option (List String)) (num_threads id : Nat) (p : pattern)
    (files : List (String × Int))
    (hid : id < num_threads) (hsize : files.length < SIZE_MOD)
    (hdistinct : (files.map Prod.fst).Nodup)
    (hlen : ∀ n content, fs n = some content → content.length < SIZE_MOD) :
    ∃ q, process_directory_thread regex_match fs num_threads id p files = some q ∧
      ∀ i x content, (thread_range num_threads id files.length).1 ≤ i →
        i < (thread_range num_threads id files.length).2 →
        files.get? i = some x → fs x.1 = some content →
        ∃ g, q.record x.1 = some g ∧ g.get_mtime = x.2 ∧
          ((p.record x.1).map file.get_mtime ≠ some x.2 →
            g = { name := x.1, mtime := x.2,
                  lines := stored_lines
                    (fun l => regex_match l (pattern_exp p.get_str)) content }) ∧
          (∀ f, p.record x.1 = some f → f.get_mtime = x.2 → g = f) := by
  have hend : (thread_range num_threads id files.length).2 ≤ files.length := by
    rw [thread_range_eq hid hsize]
    have hle := succ_mul_div_le (n := files.length) hid
    simp only
    split
    · exact le_refl _
    · exact hle
  have hstart : (thread_range num_threads id files.length).1 ≤ files.length := by
    rw [thread_range_eq hid hsize]
    exact Nat.le_trans (Nat.le_add_right _ _) (succ_mul_div_le (n := files.length) hid)
  unfold process_directory_thread
  simp only
  generalize thread_range num_threads id files.length = r at hend hstart
  have hsum : r.1 + (r.2 - r.1) ≤ files.length := by omega
  refine ⟨_, thread_loop_eq regex_match fs files (r.2 - r.1) r.1 p hsum, ?_⟩
  intro i x content h1 h2 hget hfs
  have hsub : ((files.drop r.1).take (r.2 - r.1)).Sublist files :=
    (List.take_sublist _ _).trans (List.drop_sublist _ _)
  have hmem : x ∈ (files.drop r.1).take (r.2 - r.1) := by
    rw [List.mem_iff_getElem?]
    refine ⟨i - r.1, ?_⟩
    rw [List.getElem?_take_of_lt (by omega), List.getElem?_drop]
    have : r.1 + (i - r.1) = i := by omega
    rw [this, ← List.get?_eq_getElem?]
    exact hget
  exact run_files_record regex_match fs _ p (hdistinct.sublist (hsub.map Prod.fst)) hlen
    x hmem content hfs

/-- Witness for the amended C8: one worker, the unreadable `b` between the readable `a`
and `c`; `c` is scanned all the same. -/
theorem worker_isolates_failures_witness :
    ((0 : Nat) < 1 ∧ [("a", (5 : Int)), ("b", 5), ("c", 5)].length < SIZE_MOD ∧
      ([("a", (5 : Int)), ("b", 5), ("c", 5)].map Prod.fst).Nodup) ∧
    ∃ q, process_directory_thread literal_regex_match
        (fun s => if s = "a" then some ["ERROR 1"] else if s = "c" then some ["x", "ERROR 2"]
          else none)
        1 0 (pattern.new "ERROR") [("a", 5), ("b", 5), ("c", 5)] = some q ∧
      q.record "c" =
        some { name := "c", mtime := 5, lines := [{ linestr := "ERROR 2", linenum := 2 }] } := by
  refine ⟨⟨by decide, by decide, by decide⟩, ?_⟩
  obtain ⟨q, hq, h⟩ := worker_isolates_failures literal_regex_match
    (fun s => if s = "a" then some ["ERROR 1"] else if s = "c" then some ["x", "ERROR 2"]
      else none)
    1 0 (pattern.new "ERROR") [("a", 5), ("b", 5), ("c", 5)]
    (by decide) (by decide) (by decide)
    (by
      intro n content hn
      by_cases ha : n = "a"
      · subst ha
        cases hn
        decide
      · by_cases hc : n = "c"
        · subst hc
          cases hn
          decide
        · simp [ha, hc] at hn)
  refine ⟨q, hq, ?_⟩
  obtain ⟨g, hg, _, hnew, _⟩ :=
    h 2 ("c", 5) ["x", "ERROR 2"] (by decide) (by decide) (by decide) (by decide)
  rw [hg, hnew (by decide)]
  decide

/-- C9. Uniqueness is preserved by sequential scans: when no two records of the pattern
have the same path, the same holds after `process_reg_file`, whatever the path, the time
and the file system, and after any sequence of such calls; so any sequence of calls on
a newly constructed pattern leaves at most one record per path. -/
theorem process_reg_file_keeps_unique (regex_match : String → String → Bool)
    (fs : String → Option (List String)) (p : pattern) (filename : String) (mtime : Int)
    (hunique : p.names.Nodup) :
    (process_reg_file regex_match fs p filename mtime).1.names.Nodup ∧
    (∀ calls, (run_calls regex_match p calls).names.Nodup) ∧
    (∀ str calls n, (run_calls regex_match (pattern.new str) calls).count n ≤ 1) := by
  refine ⟨process_reg_file_names_nodup _ _ _ _ _ hunique,
    fun calls => run_calls_names_nodup _ _ calls hunique, ?_⟩
  intro str calls n
  have h : (run_calls regex_match (pattern.new str) calls).names.Nodup :=
    run_calls_names_nodup _ _ calls (by simp [pattern.names, pattern.new])
  exact List.nodup_iff_count_le_one.1 h n

/-- Witness for C9: a pattern with records for `a` and `b`, and a scan of the new path
`c`. -/
theorem process_reg_file_keeps_unique_witness :
    ({ patternstr := "ERROR",
       files := [{ name := "a", mtime := 1, lines := [] },
                 { name := "b", mtime := 1, lines := [] }],
       nfiles := 2 } : pattern).names.Nodup ∧
    (process_reg_file literal_regex_match (fun _ => none)
      { patternstr := "ERROR",
        files := [{ name := "a", mtime := 1, lines := [] },
                  { name := "b", mtime := 1, lines := [] }],
        nfiles := 2 } "c" 3).1.names.Nodup :=
  ⟨by decide,
    (process_reg_file_keeps_unique literal_regex_match (fun _ => none)
      { patternstr := "ERROR",
        files := [{ name := "a", mtime := 1, lines := [] },
                  { name := "b", mtime := 1, lines := [] }],
        nfiles := 2 } "c" 3 (by decide)).1⟩

/-- C10, counterexample. A first scan of `a.log` with supplied time `0` fails because the
file cannot be opened. The record left behind carries the time `0` of the constructor,
which equals the supplied time, so a later call with the same arguments returns `0`
without reading the file, although the file is readable by then and has a match. -/
theorem failed_scan_at_time_zero_is_skipped :
    (process_reg_file literal_regex_match (fun _ => none)
        (pattern.new "ERROR") "a.log" 0).2 = -1 ∧
    (process_reg_file literal_regex_match (fun _ => none)
        (pattern.new "ERROR") "a.log" 0).1.record "a.log" =
      some { name := "a.log", mtime := 0, lines := [] } ∧
    process_reg_file literal_regex_match
        (fun s => if s = "a.log" then some ["ERROR: disk full"] else none)
        (process_reg_file literal_regex_match (fun _ => none)
          (pattern.new "ERROR") "a.log" 0).1 "a.log" 0 =
      ((process_reg_file literal_regex_match (fun _ => none)
          (pattern.new "ERROR") "a.log" 0).1, 0) := by
  decide

/-- C10, amended. When `process_reg_file` fails, and the supplied time is not `0` or the
pattern already held a record for the path, the record for the path then carries a time
other than the supplied one (the old time, or `0` for a new record), and a later call
with the same path and time does not take the unchanged-file shortcut: it returns `0`
exactly when the file can be opened then. -/
theorem failed_scan_stays_retryable (regex_match : String → String → Bool)
    (fs : String → Option (List String)) (p : pattern) (filename : String) (mtime : Int)
    (hfail : (process_reg_file regex_match fs p filename mtime).2 = -1)
    (hsentinel : mtime ≠ 0 ∨ filename ∈ p.names) :
    (∃ f, (process_reg_file regex_match fs p filename mtime).1.record filename = some f ∧
      f.get_mtime ≠ mtime) ∧
    ∀ fs2, (process_reg_file regex_match fs2
        (process_reg_file regex_match fs p filename mtime).1 filename mtime).2 = 0 ↔
      (fs2 filename).isSome = true := by
  have hrec : ∃ f, (process_reg_file regex_match fs p filename mtime).1.record filename =
      some f ∧ f.get_mtime ≠ mtime := by
    cases hfind : p.find_file filename with
    | none =>
      have hnew := (find_file_none_iff p filename).1 hfind
      have hm : mtime ≠ 0 := by
        rcases hsentinel with h | h
        · exact h
        · exact absurd h hnew
      cases hfs : fs filename with
      | some content =>
        rw [process_reg_file_first regex_match fs hfind hfs] at hfail
        simp at hfail
      | none =>
        rw [process_reg_file_first_fail regex_match fs hfind hfs]
        refine ⟨file.new filename, ?_, ?_⟩
        · simp [record_eq_find, file.new]
        · simp only [file.get_mtime, file.new]
          exact fun h => hm h.symm
    | some i =>
      by_cases hmt : (p.deref i).mtime = mtime
      · rw [process_reg_file_skip regex_match fs hfind hmt] at hfail
        simp at hfail
      · cases hfs : fs filename with
        | some content =>
          rw [process_reg_file_rescan regex_match fs hfind hmt hfs] at hfail
          simp at hfail
        | none =>
          rw [process_reg_file_rescan_fail regex_match fs hfind hmt hfs]
          exact ⟨_, record_store_hit _ hfind rfl, hmt⟩
  refine ⟨hrec, ?_⟩
  obtain ⟨f, hf, hne⟩ := hrec
  intro fs2
  obtain ⟨i, hi, hd⟩ := find_of_record hf
  have hmt2 : ((process_reg_file regex_match fs p filename mtime).1.deref i).mtime ≠ mtime := by
    rw [hd]
    exact hne
  cases hfs2 : fs2 filename with
  | none =>
    rw [process_reg_file_rescan_fail regex_match fs2 hi hmt2 hfs2]
    simp
  | some content =>
    rw [process_reg_file_rescan regex_match fs2 hi hmt2 hfs2]
    simp

/-- Witness for the amended C10: a failed first scan with supplied time 7. -/
theorem failed_scan_stays_retryable_witness :
    ((process_reg_file literal_regex_match (fun _ => none)
        (pattern.new "ERROR") "a.log" 7).2 = -1 ∧
      ((7 : Int) ≠ 0 ∨ "a.log" ∈ (pattern.new "ERROR").names)) ∧
    ∃ f, (process_reg_file literal_regex_match (fun _ => none)
        (pattern.new "ERROR") "a.log" 7).1.record "a.log" = some f ∧ f.get_mtime ≠ 7 :=
  ⟨⟨by decide, Or.inl (by decide)⟩,
    (failed_scan_stays_retryable literal_regex_match (fun _ => none)
      (pattern.new "ERROR") "a.log" 7 (by decide) (Or.inl (by decide))).1⟩

/-! ## What `pattern::print` writes -/

theorem print_lines_loop_eq (f : file) (j : Nat) (h : j ≤ f.lines.length) :
    pattern.print_lines_loop f j = some ((f.lines.take j).reverse.flatMap line_tokens) := by
  induction j with
  | zero => simp [pattern.print_lines_loop]
  | succ j ih =>
    have hj : j < f.lines.length := by omega
    have hget : f.get_line j = some f.lines[j] := by
      simp only [file.get_line]
      rw [List.get?_eq_getElem?, List.getElem?_eq_getElem hj]
    have ht : f.lines.take (j + 1) = f.lines.take j ++ [f.lines[j]] := by
      rw [List.take_succ, List.getElem?_eq_getElem hj]
      rfl
    simp only [pattern.print_lines_loop, hget, ih (by omega), Option.map_some', ht,
      List.reverse_append, List.reverse_cons, List.reverse_nil, List.nil_append,
      List.singleton_append, List.flatMap_cons, line_tokens]

theorem print_file_eq (f : file) : pattern.print_file f = some (file_block f) := by
  simp only [pattern.print_file, file.get_nlines,
    print_lines_loop_eq f f.lines.length (le_refl _), Option.map_some', List.take_length]
  rfl

theorem print_files_loop_eq (p : pattern) (k i : Nat) (h : i + k ≤ p.files.length) :
    pattern.print_files_loop p k i =
      some (((p.files.drop i).take k).flatMap file_block) := by
  induction k generalizing i with
  | zero => simp [pattern.print_files_loop]
  | succ k ih =>
    have hi : i < p.files.length := by omega
    have hget : p.get_file i = some p.files[i] := by
      simp only [pattern.get_file, get_file_loop_eq]
      exact List.getElem?_eq_getElem hi
    simp only [pattern.print_files_loop, hget, print_file_eq, ih (i + 1) (by omega),
      Option.map_some']
    rw [List.drop_eq_getElem_cons hi, List.take_succ_cons, List.flatMap_cons]

theorem print_eq (p : pattern) (h : p.nfiles = p.files.length) :
    p.print = some (pattern_heading p ++ p.files.flatMap file_block) := by
  simp only [pattern.print, pattern_heading]
  rw [print_files_loop_eq p p.nfiles 0 (by omega)]
  simp only [Option.map_some', List.drop_zero]
  rw [h, List.take_length]

/-! ## Count and list stay in step -/

theorem process_reg_file_count (regex_match : String → String → Bool)
    (fs : String → Option (List String)) (p : pattern) (n : String) (mtime : Int)
    (h : p.nfiles = p.files.length) (hb : p.files.length + 1 < SIZE_MOD) :
    (process_reg_file regex_match fs p n mtime).1.nfiles =
      (process_reg_file regex_match fs p n mtime).1.files.length ∧
    (process_reg_file regex_match fs p n mtime).1.files.length ≤ p.files.length + 1 := by
  obtain ⟨g, _, _, hs | hs⟩ := process_reg_file_shape regex_match fs p n mtime
  · obtain ⟨i, _, hs⟩ := hs
    rw [hs]
    simp [pattern.store, h]
  · rw [hs.2]
    simp only [List.length_cons, h]
    exact ⟨Nat.mod_eq_of_lt hb, le_refl _⟩

theorem run_calls_count (regex_match : String → String → Bool) (p : pattern)
    (calls : List call) (h : p.nfiles = p.files.length)
    (hb : p.files.length + calls.length < SIZE_MOD) :
    (run_calls regex_match p calls).nfiles = (run_calls regex_match p calls).files.length ∧
    (run_calls regex_match p calls).files.length ≤ p.files.length + calls.length := by
  induction calls generalizing p with
  | nil => exact ⟨h, le_refl _⟩
  | cons c rest ih =>
    simp only [List.length_cons] at hb
    obtain ⟨h1, h2⟩ := process_reg_file_count regex_match c.fs p c.filename c.mtime h
      (by omega)
    obtain ⟨h3, h4⟩ := ih _ h1 (by omega)
    simp only [run_calls, List.length_cons]
    exact ⟨h3, by omega⟩

/-! ## The order of the records -/

theorem run_calls_names (regex_match : String → String → Bool) (p : pattern)
    (calls : List call) :
    (run_calls regex_match p calls).names =
      ((first_scans (calls.map call.filename)).filter
        (fun y => decide (y ∉ p.names))).reverse ++ p.names := by
  induction calls generalizing p with
  | nil => simp [run_calls, first_scans]
  | cons c rest ih =>
    simp only [run_calls, List.map_cons, first_scans]
    rw [ih, process_reg_file_names]
    by_cases hc : c.filename ∈ p.names
    · simp only [hc, if_true, List.filter_cons, not_true_eq_false, decide_False,
        List.filter_filter]
      congr 2
      apply List.filter_congr
      intro y _
      by_cases hy : y ∈ p.names
      · simp [hy]
      · have : y ≠ c.filename := fun h => hy (h ▸ hc)
        simp [hy, this]
    · simp only [hc, if_false, List.filter_cons, not_false_eq_true, decide_True, if_true,
        List.filter_filter, List.reverse_cons, List.append_assoc, List.singleton_append]
      congr 2
      apply List.filter_congr
      intro y _
      simp only [List.mem_cons, not_or]
      by_cases hy : y ∈ p.names <;> by_cases hyc : y = c.filename <;> simp [hy, hyc]

/-- C11, counterexample. `a` is scanned, then `b`, then `a` is rescanned with a later
modification time; every call succeeds. `pattern::print` lists `b` first and `a` second,
although `a` is the file scanned most recently. -/
theorem print_keeps_rescanned_file_in_place :
    (process_reg_file literal_regex_match (fun _ => some ["ERROR 1"])
        (pattern.new "ERROR") "a" 1).2 = 0 ∧
    (process_reg_file literal_regex_match (fun _ => some ["ERROR 1"])
        (run_calls literal_regex_match (pattern.new "ERROR")
          [{ fs := fun _ => some ["ERROR 1"], filename := "a", mtime := 1 }]) "b" 1).2 = 0 ∧
    (process_reg_file literal_regex_match (fun _ => some ["x", "ERROR 2"])
        (run_calls literal_regex_match (pattern.new "ERROR")
          [{ fs := fun _ => some ["ERROR 1"], filename := "a", mtime := 1 },
           { fs := fun _ => some ["ERROR 1"], filename := "b", mtime := 1 }]) "a" 2).2 = 0 ∧
    (run_calls literal_regex_match (pattern.new "ERROR")
        [{ fs := fun _ => some ["ERROR 1"], filename := "a", mtime := 1 },
         { fs := fun _ => some ["ERROR 1"], filename := "b", mtime := 1 },
         { fs := fun _ => some ["x", "ERROR 2"], filename := "a", mtime := 2 }]).print =
      some ([token.str "PATTERN = ", token.str "ERROR", token.endl,
             token.str "\t", token.num 2, token.str " file(s) scanned", token.endl,
             token.str " files", token.endl] ++
            file_heading "b" 1 ++
            [token.num 1, token.str ": ", token.str "ERROR 1", token.endl] ++
            file_heading "a" 1 ++
            [token.num 2, token.str ": ", token.str "ERROR 2", token.endl]) := by
  decide

/-- C11, amended. After any sequence of fewer than `2 ^ 64` calls of `process_reg_file` on a
newly constructed pattern, `pattern::print` writes the heading and then one block per record
in list order, and the list holds the paths in the reverse of the order in which they
were scanned for the first time: from the most recently created record to the oldest. A
rescan leaves a record where it is. -/
theorem print_lists_newest_record_first (regex_match : String → String → Bool)
    (str : String) (calls : List call) (hcalls : calls.length < SIZE_MOD) :
    (run_calls regex_match (pattern.new str) calls).print =
      some (pattern_heading (run_calls regex_match (pattern.new str) calls) ++
        (run_calls regex_match (pattern.new str) calls).files.flatMap file_block) ∧
    (run_calls regex_match (pattern.new str) calls).files.map file.get_name =
      (first_scans (calls.map call.filename)).reverse := by
  constructor
  · apply print_eq
    exact (run_calls_count regex_match (pattern.new str) calls rfl
      (by simpa [pattern.new] using hcalls)).1
  · have h := run_calls_names regex_match (pattern.new str) calls
    simpa [pattern.names, pattern.new] using h

/-- Witness for the amended C11, at the calls of the counterexample. -/
theorem print_lists_newest_record_first_witness :
    [({ fs := fun _ => some ["ERROR 1"], filename := "a", mtime := 1 } : call),
      { fs := fun _ => some ["ERROR 1"], filename := "b", mtime := 1 },
      { fs := fun _ => some ["x", "ERROR 2"], filename := "a", mtime := 2 }].length < SIZE_MOD ∧
    (run_calls literal_regex_match (pattern.new "ERROR")
        [{ fs := fun _ => some ["ERROR 1"], filename := "a", mtime := 1 },
         { fs := fun _ => some ["ERROR 1"], filename := "b", mtime := 1 },
         { fs := fun _ => some ["x", "ERROR 2"], filename := "a", mtime := 2 }]).files.map
        file.get_name = ["b", "a"] :=
  ⟨by decide,
    (print_lists_newest_record_first literal_regex_match "ERROR"
      [{ fs := fun _ => some ["ERROR 1"], filename := "a", mtime := 1 },
       { fs := fun _ => some ["ERROR 1"], filename := "b", mtime := 1 },
       { fs := fun _ => some ["x", "ERROR 2"], filename := "a", mtime := 2 }]
      (by decide)).2.trans (by decide)⟩

/-! ## Line numbers within a record -/

theorem stored_lines_increasing (matcher : String → Bool) (content : List String) :
    ((stored_lines matcher content).map line.linenum).Pairwise (fun a b => a < b) := by
  have hmap : (stored_lines matcher content).map line.linenum =
      ((content.enumFrom 1).filter (fun x => matcher x.2)).map Prod.fst := by
    simp [stored_lines, Function.comp_def]
  rw [hmap]
  have hsub : (((content.enumFrom 1).filter (fun x => matcher x.2)).map Prod.fst).Sublist
      ((content.enumFrom 1).map Prod.fst) := (List.filter_sublist _).map Prod.fst
  rw [List.enumFrom_map_fst] at hsub
  exact List.Pairwise.sublist hsub (List.pairwise_lt_range' 1 content.length)

theorem process_reg_file_lines_increasing (regex_match : String → String → Bool)
    (fs : String → Option (List String)) (p : pattern) (n : String) (mtime : Int)
    (hlen : ∀ content, fs n = some content → content.length < SIZE_MOD)
    (h : ∀ f ∈ p.files, (f.lines.map line.linenum).Pairwise (fun a b => a < b)) :
    ∀ f ∈ (process_reg_file regex_match fs p n mtime).1.files,
      (f.lines.map line.linenum).Pairwise (fun a b => a < b) := by
  obtain ⟨g, _, hg, hs⟩ := process_reg_file_shape regex_match fs p n mtime
  have hgood : (g.lines.map line.linenum).Pairwise (fun a b => a < b) := by
    rcases hg with ⟨i, hi, hgi⟩ | hnil | ⟨content, hfs, hl⟩
    · obtain ⟨_, hf, _⟩ := find_file_deref hi
      rw [hgi]
      exact h _ (List.getElem?_mem hf)
    · rw [hnil]
      exact List.Pairwise.nil
    · rw [hl, scanned_lines_eq_stored _ _ _ (hlen content hfs)]
      exact stored_lines_increasing _ _
  intro f hf
  rcases hs with ⟨i, _, hs⟩ | ⟨_, hs⟩
  · rw [hs, store_files] at hf
    rcases List.mem_or_eq_of_mem_set hf with hmem | heq
    · exact h f hmem
    · rw [heq]
      exact hgood
  · rw [hs] at hf
    rcases List.mem_cons.1 hf with heq | hmem
    · rw [heq]
      exact hgood
    · exact h f hmem

theorem run_calls_lines_increasing (regex_match : String → String → Bool) (p : pattern)
    (calls : List call)
    (hlen : ∀ c ∈ calls, ∀ content, c.fs c.filename = some content →
      content.length < SIZE_MOD)
    (h : ∀ f ∈ p.files, (f.lines.map line.linenum).Pairwise (fun a b => a < b)) :
    ∀ f ∈ (run_calls regex_match p calls).files,
      (f.lines.map line.linenum).Pairwise (fun a b => a < b) := by
  induction calls generalizing p with
  | nil => exact h
  | cons c rest ih =>
    simp only [run_calls]
    apply ih
    · exact fun d hd => hlen d (List.mem_cons_of_mem _ hd)
    · exact process_reg_file_lines_increasing regex_match c.fs p c.filename c.mtime
        (hlen c (List.mem_cons_self _ _)) h

theorem run_calls_keeps_record (regex_match : String → String → Bool) (p : pattern)
    (post : List call) (n : String) (mt : Int) (f : file)
    (hrec : p.record n = some f) (hmt : f.get_mtime = mt)
    (hpost : ∀ d ∈ post, d.filename = n → d.mtime = mt) :
    (run_calls regex_match p post).record n = some f := by
  induction post generalizing p with
  | nil => exact hrec
  | cons d rest ih =>
    simp only [run_calls]
    apply ih _ _ (fun e he => hpost e (List.mem_cons_of_mem _ he))
    by_cases hd : d.filename = n
    · obtain ⟨i, hi, hdi⟩ := find_of_record hrec
      have hm := hpost d (List.mem_cons_self _ _) hd
      rw [hd, process_reg_file_skip regex_match d.fs hi (by rw [hdi, hm]; exact hmt)]
      exact hrec
    · rw [process_reg_file_record_other _ _ _ _ _ _ (fun h => hd h.symm)]
      exact hrec

theorem first_scan_call_record (regex_match : String → String → Bool)
    (fs : String → Option (List String)) (p : pattern) (n : String) (mtime : Int)
    (content : List String) (hfs : fs n = some content) (hlen : content.length < SIZE_MOD)
    (hscan : (p.record n).map file.get_mtime ≠ some mtime) :
    (process_reg_file regex_match fs p n mtime).1.record n =
      some { name := n, mtime := mtime,
             lines := stored_lines
               (fun l => regex_match l (pattern_exp p.get_str)) content } := by
  obtain ⟨g, hg, _, hnew, _⟩ := readable_call_record regex_match fs p n mtime content hfs hlen
  rw [hg, hnew hscan]

/-- C12. Report line order: after any sequence of fewer than `2 ^ 64` calls of
`process_reg_file` on a newly constructed pattern, over files of fewer than `2 ^ 64` lines,
`pattern::print` writes the heading of the pattern and then, for every record in list
order, the heading of the file with the count `lines.size ()` followed by exactly the
stored lines of that record from the last to the first, so the count equals the number
of lines emitted; the line numbers emitted for a record are strictly decreasing; and the
lines of a record are the matches of the content read by the last call that scanned the
file, when that call succeeded. -/
theorem print_emits_lines_descending (regex_match : String → String → Bool)
    (str : String) (calls : List call)
    (hlen : ∀ c ∈ calls, ∀ content, c.fs c.filename = some content →
      content.length < SIZE_MOD)
    (hcalls : calls.length < SIZE_MOD) :
    (run_calls regex_match (pattern.new str) calls).print =
      some (pattern_heading (run_calls regex_match (pattern.new str) calls) ++
        (run_calls regex_match (pattern.new str) calls).files.flatMap
          (fun f => file_heading f.get_name f.lines.length ++
            f.lines.reverse.flatMap line_tokens)) ∧
    (∀ f ∈ (run_calls regex_match (pattern.new str) calls).files,
      (f.lines.reverse.map line.linenum).Pairwise (fun a b => a > b)) ∧
    (∀ (pre post : List call) (c : call) (content : List String),
      calls = pre ++ c :: post →
      c.fs c.filename = some content →
      ((run_calls regex_match (pattern.new str) pre).record c.filename).map file.get_mtime ≠
        some c.mtime →
      (∀ d ∈ post, d.filename = c.filename → d.mtime = c.mtime) →
      (run_calls regex_match (pattern.new str) calls).record c.filename =
        some { name := c.filename, mtime := c.mtime,
               lines := stored_lines (fun l => regex_match l (pattern_exp str)) content }) := by
  refine ⟨?_, ?_, ?_⟩
  · have h := print_eq (run_calls regex_match (pattern.new str) calls)
      (run_calls_count regex_match (pattern.new str) calls rfl
        (by simpa [pattern.new] using hcalls)).1
    exact h
  · intro f hf
    have h := run_calls_lines_increasing regex_match (pattern.new str) calls hlen
      (by simp [pattern.new]) f hf
    rw [List.map_reverse, List.pairwise_reverse]
    exact h
  · intro pre post c content hsplit hfs hscan hpost
    subst hsplit
    rw [run_calls_append]
    simp only [run_calls]
    have hc := first_scan_call_record regex_match c.fs
      (run_calls regex_match (pattern.new str) pre) c.filename c.mtime content hfs
      (hlen c (by simp) content hfs) hscan
    have hstr : (run_calls regex_match (pattern.new str) pre).get_str = str :=
      run_calls_patternstr regex_match (pattern.new str) pre
    rw [hstr] at hc
    exact run_calls_keeps_record regex_match _ post c.filename c.mtime _ hc rfl hpost

/-- Witness for C12: one file with matches at lines 1 and 3; print writes line 3 before
line 1 after the count 2. -/
theorem print_emits_lines_descending_witness :
    ((∀ c ∈ [({ fs := fun _ => some ["ERROR 1", "x", "ERROR 3"], filename := "a",
                mtime := 1 } : call)],
        ∀ content, c.fs c.filename = some content → content.length < SIZE_MOD) ∧
      [({ fs := fun _ => some ["ERROR 1", "x", "ERROR 3"], filename := "a",
          mtime := 1 } : call)].length < SIZE_MOD) ∧
    (run_calls literal_regex_match (pattern.new "ERROR")
        [{ fs := fun _ => some ["ERROR 1", "x", "ERROR 3"], filename := "a",
           mtime := 1 }]).print =
      some ([token.str "PATTERN = ", token.str "ERROR", token.endl,
             token.str "\t", token.num 1, token.str " file(s) scanned", token.endl,
             token.str " files", token.endl] ++
            file_heading "a" 2 ++
            [token.num 3, token.str ": ", token.str "ERROR 3", token.endl,
             token.num 1, token.str ": ", token.str "ERROR 1", token.endl]) :=
  have hlen : ∀ c ∈ [({ fs := fun _ => some ["ERROR 1", "x", "ERROR 3"], filename := "a",
                        mtime := 1 } : call)],
      ∀ content, c.fs c.filename = some content → content.length < SIZE_MOD := by
    intro c hc content h
    rw [List.mem_singleton] at hc
    subst hc
    simp only [Option.some.injEq] at h
    subst h
    decide
  ⟨⟨hlen, by decide⟩,
    (print_emits_lines_descending literal_regex_match "ERROR" _ hlen (by decide)).1.trans
      (by decide)⟩

/-- C17. Count and list stay consistent: after any sequence of fewer than `2 ^ 64` calls of
`process_reg_file` on a newly constructed pattern, `nfiles` is the length of the list of
files, `get_file (i)` is not null for every `i < nfiles`, and `pattern::print` runs to
the end without reaching a null record. A failed first-time scan counts: it leaves a
record with no lines and time `0` for the path and raises `nfiles` by one. -/
theorem nfiles_matches_list (regex_match : String → String → Bool)
    (str : String) (calls : List call) (hcalls : calls.length < SIZE_MOD) :
    (run_calls regex_match (pattern.new str) calls).nfiles =
      (run_calls regex_match (pattern.new str) calls).files.length ∧
    (∀ i, i < (run_calls regex_match (pattern.new str) calls).nfiles →
      ∃ f, (run_calls regex_match (pattern.new str) calls).get_file i = some f) ∧
    (∃ out, (run_calls regex_match (pattern.new str) calls).print = some out) ∧
    (∀ (fs : String → Option (List String)) (filename : String) (mtime : Int),
      calls.length + 1 < SIZE_MOD →
      filename ∉ (run_calls regex_match (pattern.new str) calls).names →
      fs filename = none →
      (process_reg_file regex_match fs
          (run_calls regex_match (pattern.new str) calls) filename mtime).2 = -1 ∧
      (process_reg_file regex_match fs
          (run_calls regex_match (pattern.new str) calls) filename mtime).1.record filename =
        some { name := filename, mtime := 0, lines := [] } ∧
      (process_reg_file regex_match fs
          (run_calls regex_match (pattern.new str) calls) filename mtime).1.nfiles =
        (run_calls regex_match (pattern.new str) calls).nfiles + 1 ∧
      (process_reg_file regex_match fs
          (run_calls regex_match (pattern.new str) calls) filename mtime).1.nfiles =
        (process_reg_file regex_match fs
          (run_calls regex_match (pattern.new str) calls) filename mtime).1.files.length) := by
  obtain ⟨hcount, hle⟩ := run_calls_count regex_match (pattern.new str) calls rfl
    (by simpa [pattern.new] using hcalls)
  have hle2 : (run_calls regex_match (pattern.new str) calls).files.length ≤ calls.length := by
    simpa [pattern.new] using hle
  refine ⟨hcount, ?_, ⟨_, print_eq _ hcount⟩, ?_⟩
  · intro i hi
    rw [hcount] at hi
    exact ⟨_, by
      simp only [pattern.get_file, get_file_loop_eq]
      exact List.getElem?_eq_getElem hi⟩
  · intro fs filename mtime hb hnew hfs
    have hfind := (find_file_none_iff _ filename).2 hnew
    rw [process_reg_file_first_fail regex_match fs hfind hfs]
    refine ⟨rfl, ?_, ?_, ?_⟩
    · simp [record_eq_find, file.new]
    · exact Nat.mod_eq_of_lt (by rw [hcount]; omega)
    · simp only [List.length_cons]
      rw [hcount]
      exact Nat.mod_eq_of_lt (by omega)

/-- Witness for C17: a failed first-time scan followed by a successful one. -/
theorem nfiles_matches_list_witness :
    [({ fs := fun _ => none, filename := "a", mtime := 1 } : call),
      { fs := fun _ => some ["ERROR 1"], filename := "b", mtime := 1 }].length < SIZE_MOD ∧
    (run_calls literal_regex_match (pattern.new "ERROR")
        [{ fs := fun _ => none, filename := "a", mtime := 1 },
         { fs := fun _ => some ["ERROR 1"], filename := "b", mtime := 1 }]).nfiles =
      (run_calls literal_regex_match (pattern.new "ERROR")
        [{ fs := fun _ => none, filename := "a", mtime := 1 },
         { fs := fun _ => some ["ERROR 1"], filename := "b", mtime := 1 }]).files.length :=
  ⟨by decide,
    (nfiles_matches_list literal_regex_match "ERROR"
      [{ fs := fun _ => none, filename := "a", mtime := 1 },
       { fs := fun _ => some ["ERROR 1"], filename := "b", mtime := 1 }] (by decide)).1⟩

/-! ## Patterns of the root -/

theorem find_pattern_loop_none_iff (s : String) (l : List pattern) :
    root.find_pattern_loop s l = none ↔ s ∉ l.map pattern.get_str := by
  induction l with
  | nil => simp [root.find_pattern_loop]
  | cons a l ih =>
    simp only [root.find_pattern_loop, List.map_cons, List.mem_cons, not_or]
    split
    · rename_i hn
      simp [hn]
    · rename_i hn
      simp [hn, ih]

theorem find_pattern_loop_some {s : String} {l : List pattern} {i : Nat}
    (h : root.find_pattern_loop s l = some i) : ∃ q, l.get? i = some q ∧ q.get_str = s := by
  induction l generalizing i with
  | nil => simp [root.find_pattern_loop] at h
  | cons a l ih =>
    simp only [root.find_pattern_loop] at h
    split at h
    · rename_i hn
      cases h
      exact ⟨a, by simp, hn.symm⟩
    · cases hr : root.find_pattern_loop s l with
      | none => simp [hr] at h
      | some j =>
        simp [hr] at h
        subst h
        simpa using ih hr

/-- C13. Pattern uniqueness under find-or-create: on a root in which no two patterns have
the same text (and whose counter is not at its last value), lines 467 to 469 of `main`
leave a root with no two patterns of the same text and return a pointer to a pattern
whose text is the requested string; when a pattern with that text exists the root is
unchanged, and otherwise one new pattern is linked at the head and `npatterns` grows by
one. -/
theorem main_select_pattern_unique (r : root) (patternstr : String)
    (hunique : r.texts.Nodup) (hcount : r.npatterns + 1 < SIZE_MOD) :
    (main_select_pattern r patternstr).1.texts.Nodup ∧
    (∃ q, (main_select_pattern r patternstr).1.patterns.get?
        (main_select_pattern r patternstr).2 = some q ∧ q.get_str = patternstr) ∧
    (patternstr ∈ r.texts → (main_select_pattern r patternstr).1 = r) ∧
    (patternstr ∉ r.texts →
      (main_select_pattern r patternstr).1 =
        { npatterns := r.npatterns + 1, patterns := pattern.new patternstr :: r.patterns }) := by
  cases hfind : r.find_pattern patternstr with
  | some i =>
    have hmem : patternstr ∈ r.texts := by
      by_contra hc
      rw [root.find_pattern, (find_pattern_loop_none_iff patternstr r.patterns).2 hc] at hfind
      cases hfind
    have hres : main_select_pattern r patternstr = (r, i) := by
      simp only [main_select_pattern, hfind]
    rw [hres]
    exact ⟨hunique, find_pattern_loop_some hfind, fun _ => rfl, fun h => absurd hmem h⟩
  | none =>
    have hmem : patternstr ∉ r.texts :=
      (find_pattern_loop_none_iff patternstr r.patterns).1 hfind
    have hres : main_select_pattern r patternstr =
        ({ npatterns := r.npatterns + 1, patterns := pattern.new patternstr :: r.patterns },
          0) := by
      simp only [main_select_pattern, hfind, root.create_new_pattern, Nat.mod_eq_of_lt hcount]
    rw [hres]
    refine ⟨?_, ⟨pattern.new patternstr, by simp, rfl⟩, fun h => absurd h hmem, fun _ => rfl⟩
    simp only [root.texts, List.map_cons]
    exact List.nodup_cons.2 ⟨hmem, hunique⟩

/-- Witness for C13: a root with the pattern `ERROR`, asked for the new pattern `WARN`. -/
theorem main_select_pattern_unique_witness :
    (({ npatterns := 1, patterns := [pattern.new "ERROR"] } : root).texts.Nodup ∧
      (1 : Nat) + 1 < SIZE_MOD) ∧
    (main_select_pattern { npatterns := 1, patterns := [pattern.new "ERROR"] } "WARN").1.texts
      = ["WARN", "ERROR"] :=
  ⟨⟨by decide, by decide⟩, by
    have h := (main_select_pattern_unique
      { npatterns := 1, patterns := [pattern.new "ERROR"] } "WARN"
      (by decide) (by decide)).2.2.2 (by decide)
    rw [h]
    decide⟩

/-! ## Frame of one call -/

theorem filter_set_same {P : file → Bool} {l : List file} {i : Nat} {f g : file}
    (hf : l[i]? = some f) (hPf : P f = false) (hPg : P g = false) :
    (l.set i g).filter P = l.filter P := by
  induction l generalizing i with
  | nil => simp at hf
  | cons a l ih =>
    cases i with
    | zero =>
      simp at hf
      subst hf
      simp [List.filter_cons, hPf, hPg]
    | succ i =>
      simp at hf
      simp [List.filter_cons, ih hf]

/-- C15. Frame of a single-file scan: whatever `process_reg_file (p, path, mtime)` does,
the records whose path differs from `path` are afterwards the same records (name, time
and lines) in the same order, and the list of files either has one new record for `path`
linked at its head or is the old list with the record `find_file` returns for `path`
replaced in place by a record for `path`. -/
theorem process_reg_file_frame (regex_match : String → String → Bool)
    (fs : String → Option (List String)) (p : pattern) (filename : String) (mtime : Int) :
    (process_reg_file regex_match fs p filename mtime).1.files.filter
        (fun f => decide (f.get_name ≠ filename)) =
      p.files.filter (fun f => decide (f.get_name ≠ filename)) ∧
    ((filename ∉ p.names ∧ ∃ g : file, g.get_name = filename ∧
        (process_reg_file regex_match fs p filename mtime).1.files = g :: p.files) ∨
     (∃ i, ∃ g : file, p.find_file filename = some i ∧ g.get_name = filename ∧
        (process_reg_file regex_match fs p filename mtime).1.files = p.files.set i g)) := by
  obtain ⟨g, hg, _, hs | hs⟩ := process_reg_file_shape regex_match fs p filename mtime
  · obtain ⟨i, hi, hs⟩ := hs
    obtain ⟨_, hf, hname⟩ := find_file_deref hi
    refine ⟨?_, Or.inr ⟨i, g, hi, hg, by rw [hs]; rfl⟩⟩
    rw [hs, store_files]
    apply filter_set_same hf
    · simp [file.get_name, hname]
    · simp [file.get_name, hg]
  · refine ⟨?_, Or.inl ⟨(find_file_none_iff p filename).1 hs.1, g, hg, by rw [hs.2]⟩⟩
    rw [hs.2]
    simp [List.filter_cons, file.get_name, hg]

/-- C16. Slice shape and bounds for any thread count: for a list of `n < 2 ^ 64` files and
any `num_threads >= 1`, also above `n`, a worker other than the last gets the `n / t`
indices from `id * (n / t)`, the last worker gets the range from `(t - 1) * (n / t)` to
`n`, which holds `n / t + n % t` indices, no range passes `n` and no worker reads past
the end of the list, every index below `n` lies in the range of exactly one worker, and
with more threads than files all files go to the last worker. -/
theorem thread_range_shape (regex_match : String → String → Bool)
    (fs : String → Option (List String)) (num_threads : Nat) (files : List (String × Int))
    (p : pattern) (ht : 1 ≤ num_threads) (hsize : files.length < SIZE_MOD) :
    (∀ id, id + 1 < num_threads →
      thread_range num_threads id files.length =
        (id * (files.length / num_threads),
          id * (files.length / num_threads) + files.length / num_threads)) ∧
    thread_range num_threads (num_threads - 1) files.length =
      ((num_threads - 1) * (files.length / num_threads), files.length) ∧
    files.length - (num_threads - 1) * (files.length / num_threads) =
      files.length / num_threads + files.length % num_threads ∧
    (∀ id, id < num_threads → (thread_range num_threads id files.length).2 ≤ files.length) ∧
    (∀ id, id < num_threads →
      ∃ q, process_directory_thread regex_match fs num_threads id p files = some q) ∧
    (∀ i, i < files.length →
      ∃! id, id < num_threads ∧ (thread_range num_threads id files.length).1 ≤ i ∧
        i < (thread_range num_threads id files.length).2) ∧
    (files.length < num_threads →
      (∀ id, id + 1 < num_threads → thread_range num_threads id files.length = (0, 0)) ∧
      thread_range num_threads (num_threads - 1) files.length = (0, files.length)) := by
  have hbound : ∀ id, id < num_threads →
      (thread_range num_threads id files.length).1 ≤ files.length ∧
      (thread_range num_threads id files.length).2 ≤ files.length := by
    intro id hid
    rw [thread_range_eq hid hsize]
    have hle := succ_mul_div_le (n := files.length) hid
    refine ⟨Nat.le_trans (Nat.le_add_right _ _) hle, ?_⟩
    simp only
    split
    · exact le_refl _
    · exact hle
  have hother : ∀ id, id + 1 < num_threads →
      thread_range num_threads id files.length =
        (id * (files.length / num_threads),
          id * (files.length / num_threads) + files.length / num_threads) := by
    intro id hid
    rw [thread_range_eq (by omega) hsize]
    have hne : ¬ (id + 1 = num_threads) := by omega
    simp only [hne, if_false]
  have hlast : thread_range num_threads (num_threads - 1) files.length =
      ((num_threads - 1) * (files.length / num_threads), files.length) := by
    rw [thread_range_eq (by omega) hsize]
    have he : num_threads - 1 + 1 = num_threads := by omega
    simp only [he, if_true]
  refine ⟨hother, hlast, ?_, fun id hid => (hbound id hid).2, ?_,
    fun i hi => thread_range_cover ht hsize i hi, ?_⟩
  · have h1 : num_threads * (files.length / num_threads) + files.length % num_threads =
        files.length := Nat.div_add_mod _ _
    have h2 : (num_threads - 1) * (files.length / num_threads) + files.length / num_threads =
        num_threads * (files.length / num_threads) := by
      obtain ⟨k, rfl⟩ : ∃ k, num_threads = k + 1 := ⟨num_threads - 1, by omega⟩
      simp only [Nat.add_sub_cancel]
      ring
    generalize files.length / num_threads = q at h1 h2 ⊢
    generalize files.length % num_threads = m at h1 ⊢
    generalize (num_threads - 1) * q = a at h2 ⊢
    generalize num_threads * q = b at h1 h2
    omega
  · intro id hid
    obtain ⟨h1, h2⟩ := hbound id hid
    unfold process_directory_thread
    simp only
    generalize thread_range num_threads id files.length = r at h1 h2
    exact ⟨_, thread_loop_eq regex_match fs files (r.2 - r.1) r.1 p (by omega)⟩
  · intro hlt
    have hq : files.length / num_threads = 0 := Nat.div_eq_of_lt hlt
    refine ⟨fun id hid => ?_, ?_⟩
    · rw [hother id hid, hq]
      simp
    · rw [hlast, hq]
      simp

/-- Witness for C16: two files and three threads. -/
theorem thread_range_shape_witness :
    (1 ≤ 3 ∧ [("a", (1 : Int)), ("b", 1)].length < SIZE_MOD) ∧
    thread_range 3 (3 - 1) [("a", (1 : Int)), ("b", 1)].length =
      ((3 - 1) * ([("a", (1 : Int)), ("b", 1)].length / 3),
        [("a", (1 : Int)), ("b", 1)].length) :=
  ⟨⟨by decide, by decide⟩,
    (thread_range_shape literal_regex_match (fun _ => none) 3 [("a", 1), ("b", 1)]
      (pattern.new "x") (by decide) (by decide)).2.1⟩

/-! ## Two workers racing for one path -/

theorem process_pattern_name (regex_match : String → String → Bool)
    (fs : String → Option (List String)) (f : file) (str : String) :
    (f.process_pattern regex_match fs str).1.name = f.name := by
  cases hfs : fs f.name with
  | none => rw [process_pattern_unreadable regex_match fs f str hfs]
  | some content => rw [process_pattern_readable regex_match fs f str content hfs]

theorem names_store_deref (p : pattern) (i : Nat) (g : file) (hg : g.name = (p.deref i).name) :
    (p.store i g).names = p.names := by
  by_cases hi : i < p.files.length
  · have hf : p.files[i]? = some (p.deref i) := by
      rw [deref_eq (List.getElem?_eq_getElem hi), List.getElem?_eq_getElem hi]
    exact map_name_set_same hf hg
  · simp only [pattern.names, store_files]
    rw [List.set_eq_of_length_le (by omega)]

theorem process_reg_file_scan_names (regex_match : String → String → Bool)
    (fs : String → Option (List String)) (p : pattern) (i : Nat) (mtime : Int) :
    (process_reg_file_scan regex_match fs p i mtime).1.names = p.names := by
  have h1 : (p.store i ((p.deref i).process_pattern regex_match fs p.get_str).1).names =
      p.names := names_store_deref p i _ (process_pattern_name _ _ _ _)
  simp only [process_reg_file_scan]
  split
  · exact h1
  · simp only
    rw [names_store_deref _ i _ (by simp [file.set_mtime]), h1]

theorem worker_step_count (regex_match : String → String → Bool)
    (fs : String → Option (List String)) (n : String) (mtime : Int) (p : pattern) (w : worker)
    (hstart : w = worker.start → 1 ≤ p.count n) :
    (worker_step regex_match fs n mtime p w).1.count n +
        (worker_step regex_match fs n mtime p w).2.pending = p.count n + w.pending ∧
    (worker_step regex_match fs n mtime p w).2 ≠ worker.start ∧
    p.count n ≤ (worker_step regex_match fs n mtime p w).1.count n := by
  cases w with
  | start =>
    have hc := hstart rfl
    cases hfind : p.find_file n with
    | none =>
      have hnot := (find_file_none_iff p n).1 hfind
      have h0 : p.count n = 0 := List.count_eq_zero_of_not_mem hnot
      omega
    | some i =>
      simp only [worker_step, hfind]
      split <;> simp [worker.pending]
  | looked f =>
    cases f with
    | none =>
      simp [worker_step, pattern.create_new_file, worker.pending, pattern.count,
        pattern.names, file.get_name, file.new]
    | some a =>
      have hn := names_store_deref p (p.back a) (p.deref (p.back a)).remove_lines
        (by simp [file.remove_lines])
      simp [worker_step, worker.pending, pattern.count, hn]
  | scan a =>
    simp [worker_step, worker.pending, pattern.count, process_reg_file_scan_names]
  | done ret =>
    simp [worker_step, worker.pending]

theorem race_run_count (regex_match : String → String → Bool)
    (fs : String → Option (List String)) (n : String) (mtime : Int) (sched : List Bool)
    (k : Nat) (s : pattern × worker × worker)
    (hk : s.1.count n + s.2.1.pending + s.2.2.pending = k)
    (hstart : s.2.1 = worker.start ∨ s.2.2 = worker.start → 1 ≤ s.1.count n)
    (r1 r2 : Int)
    (hdone : (race_run regex_match fs n mtime sched s).2 = (worker.done r1, worker.done r2)) :
    (race_run regex_match fs n mtime sched s).1.count n = k := by
  induction sched generalizing s with
  | nil =>
    simp only [race_run] at hdone ⊢
    have h1 : s.2.1 = worker.done r1 := congrArg Prod.fst hdone
    have h2 : s.2.2 = worker.done r2 := congrArg Prod.snd hdone
    rw [h1, h2] at hk
    simpa [worker.pending] using hk
  | cons b rest ih =>
    cases b with
    | true =>
      obtain ⟨h1, h2, h3⟩ := worker_step_count regex_match fs n mtime s.1 s.2.1
        (fun h => hstart (Or.inl h))
      simp only [race_run] at hdone ⊢
      apply ih _ _ _ hdone
      · simp only
        omega
      · simp only
        rintro (h | h)
        · exact absurd h h2
        · exact Nat.le_trans (hstart (Or.inr h)) h3
    | false =>
      obtain ⟨h1, h2, h3⟩ := worker_step_count regex_match fs n mtime s.1 s.2.2
        (fun h => hstart (Or.inr h))
      simp only [race_run] at hdone ⊢
      apply ih _ _ _ hdone
      · simp only
        omega
      · simp only
        rintro (h | h)
        · exact Nat.le_trans (hstart (Or.inl h)) h3
        · exact absurd h h2

theorem back_back (p : pattern) (i : Nat) (h : i < p.files.length) :
    p.back (p.back i) = i := by
  simp only [pattern.back]
  omega

/-- A worker that runs alone does what `process_reg_file` does. -/
theorem worker_alone (regex_match : String → String → Bool)
    (fs : String → Option (List String)) (n : String) (mtime : Int) (p : pattern)
    (w2 : worker) :
    race_run regex_match fs n mtime [true, true, true] (p, worker.start, w2) =
      ((process_reg_file regex_match fs p n mtime).1,
        worker.done (process_reg_file regex_match fs p n mtime).2, w2) := by
  cases hfind : p.find_file n with
  | none =>
    have hb : (p.create_new_file n).1.back
        ((p.create_new_file n).1.back (p.create_new_file n).2) = (p.create_new_file n).2 := by
      simp [pattern.back, pattern.create_new_file]
    simp only [race_run, worker_step, hfind, process_reg_file]
    rw [hb]
  | some i =>
    obtain ⟨hlt, _, _⟩ := find_file_deref hfind
    by_cases hd : difftime mtime (p.deref i).get_mtime = 0
    · simp [race_run, worker_step, hfind, process_reg_file, hd]
    · have hb2 : (p.store (p.back (p.back i)) (p.deref (p.back (p.back i))).remove_lines).back
          (p.back i) = i := by
        simp only [pattern.back, pattern.store, List.length_set]
        omega
      simp only [race_run, worker_step, hfind, process_reg_file, hd, if_false]
      rw [hb2, back_back p i hlt]

/-- C14, counterexample. Two workers scan the new path `a.log` under an empty pattern. Both
look the path up before either creates the record; both then create one. Both calls
return `0` and the pattern ends with two records for `a.log`. -/
theorem racing_workers_create_two_records :
    (race_run literal_regex_match (fun _ => some ["ERROR 1"]) "a.log" 7
        [true, false, true, false, true, false]
        (pattern.new "ERROR", worker.start, worker.start)).2 =
      (worker.done 0, worker.done 0) ∧
    (race_run literal_regex_match (fun _ => some ["ERROR 1"]) "a.log" 7
        [true, false, true, false, true, false]
        (pattern.new "ERROR", worker.start, worker.start)).1.count "a.log" = 2 := by
  decide

/-- C14, amended. Two workers call `process_reg_file` for the same path, which the pattern
does not hold, and both run to their return. If the first two steps of the schedule belong
to the same worker, so that its `create_new_file` comes before the lookup of the other, the
pattern ends with exactly one record for the path; if they belong to different workers,
so that both lookups come before both creations, it ends with two. -/
theorem racing_workers_record_count (regex_match : String → String → Bool)
    (fs : String → Option (List String)) (filename : String) (mtime : Int) (p : pattern)
    (s1 s2 : Bool) (rest : List Bool) (r1 r2 : Int)
    (hnew : filename ∉ p.names)
    (hdone : (race_run regex_match fs filename mtime (s1 :: s2 :: rest)
        (p, worker.start, worker.start)).2 = (worker.done r1, worker.done r2)) :
    (race_run regex_match fs filename mtime (s1 :: s2 :: rest)
        (p, worker.start, worker.start)).1.count filename = if s1 = s2 then 1 else 2 := by
  have hfind := (find_file_none_iff p filename).2 hnew
  have h0 : List.count filename (List.map file.get_name p.files) = 0 :=
    List.count_eq_zero_of_not_mem hnew
  have key := fun s hstart hd =>
    race_run_count regex_match fs filename mtime rest _ s rfl hstart r1 r2 hd
  cases s1 <;> cases s2 <;>
    simp only [race_run, worker_step, hfind, pattern.create_new_file] at hdone ⊢
  all_goals
    rw [key _ (by
      simp [pattern.count, pattern.names, file.get_name, file.new]) hdone]
    simp [worker.pending, pattern.count, pattern.names, file.get_name, file.new, h0]

/-- Witness for the amended C14: the first worker creates the record before the second
looks the path up. -/
theorem racing_workers_record_count_witness :
    ("a.log" ∉ (pattern.new "ERROR").names ∧
      (race_run literal_regex_match (fun _ => some ["ERROR 1"]) "a.log" 7
          [true, true, false, true, false, false]
          (pattern.new "ERROR", worker.start, worker.start)).2 =
        (worker.done 0, worker.done 0)) ∧
    (race_run literal_regex_match (fun _ => some ["ERROR 1"]) "a.log" 7
        [true, true, false, true, false, false]
        (pattern.new "ERROR", worker.start, worker.start)).1.count "a.log" = 1 :=
  ⟨⟨by decide, by decide⟩,
    racing_workers_record_count literal_regex_match (fun _ => some ["ERROR 1"]) "a.log" 7
      (pattern.new "ERROR") true true [false, true, false, false] 0 0 (by decide) (by decide)⟩

end Pmemgrep
